import Mathlib

/-!
# Mini-RiscV-Emulator: shallow embedding and verified properties

Embedding of `src/emulator/platform.c` and `src/emulator/minirisc.c`.

Conventions of the embedding
* `uint32_t` values are `Nat`, every arithmetic result is reduced `% 2 ^ 32`
  where the C operation can wrap; `uint64_t` likewise with `% 2 ^ 64`.
* `int32_t` values are `Int`; `toInt32` is the cast `(int32_t)x` and `u32` is
  the conversion of a signed value to `uint32_t` (two's complement).
* The backing buffer `uint8_t *memory` is a function from byte offset to byte
  value; half-word and word accesses through casted pointers are little-endian.
  `offset = addr - memory_base` is computed after the guard `addr >= memory_base`,
  so the 32-bit subtraction cannot wrap and is written as plain subtraction.
* `regs[32]` is a function from register index to value; indices produced by
  the decoder are always below 32.
* The standard output stream written by `printf` is the field `out` of the
  platform (characters in emission order). Diagnostics on `stderr` are not
  modelled.
* `int halt` only ever holds 0 or 1 and is a `Bool`.
* Right shifts of signed values are arithmetic (floor division by a power of two), and
  conversions of out-of-range values to signed types are two's complement.
* Signed `/` and `%` truncate toward zero (`Int.tdiv`, `Int.tmod`). `INT_MIN / -1` and
  `INT_MIN % -1` are undefined in C (the process is killed by the division trap): the
  register-ALU block returns `none` there, and `none` propagates through
  `minirisc_decode_and_execute` and the run loop. `some s` is a call that returns with
  state `s`.
-/

namespace MiniRisc

/-! ## platform.h / platform.c -/

/-- Access widths, `access_type_t` of platform.h. The `default:` arms of the two
switches over it serve values outside the enumeration and have no counterpart here. -/
inductive access_type_t where
  | ACCESS_BYTE
  | ACCESS_HALF
  | ACCESS_WORD
  deriving DecidableEq, Repr

open access_type_t

/-- The struct `platform_t` of platform.h, with the output stream added as `out`. -/
structure platform_t where
  memory : Nat → Nat
  memory_base : Nat
  memory_size : Nat
  charout_base : Nat
  out : List Char

def MEMORY_SIZE : Nat := 32 * 1024 * 1024
def MEMORY_BASE : Nat := 0x80000000
def CHAROUT_BASE : Nat := 0x10000000

/-- Function `platform_new`: zeroed buffer and the three configuration constants. -/
def platform_new : platform_t :=
  { memory := fun _ => 0
    memory_base := MEMORY_BASE
    memory_size := MEMORY_SIZE
    charout_base := CHAROUT_BASE
    out := [] }

/-- Test `addr >= charout_base && addr < charout_base + 12` (32-bit addition). -/
def in_charout (plt : platform_t) (addr : Nat) : Bool :=
  decide (addr ≥ plt.charout_base) && decide (addr < (plt.charout_base + 12) % 2 ^ 32)

/-- Test `addr < memory_base || addr >= memory_base + memory_size` (32-bit addition). -/
def out_of_ram (plt : platform_t) (addr : Nat) : Bool :=
  decide (addr < plt.memory_base) ||
    decide (addr ≥ (plt.memory_base + plt.memory_size) % 2 ^ 32)

/-- Function `platform_read`: `some d` is return code 0 with `*data = d`,
`none` is return code -1 (where `*data` is left untouched). -/
def platform_read (plt : platform_t) (access_type : access_type_t) (addr : Nat) :
    Option Nat :=
  if in_charout plt addr then some 0
  else if out_of_ram plt addr then none
  else
    let offset := addr - plt.memory_base
    match access_type with
    | ACCESS_BYTE => some (plt.memory offset)
    | ACCESS_HALF =>
      if addr &&& 0x1 ≠ 0 then none
      else some (plt.memory offset + 256 * plt.memory (offset + 1))
    | ACCESS_WORD =>
      if addr &&& 0x3 ≠ 0 then none
      else some (plt.memory offset + 256 * plt.memory (offset + 1)
        + 65536 * plt.memory (offset + 2) + 16777216 * plt.memory (offset + 3))

/-- Cast `(int32_t)x` of a 32-bit pattern. -/
def toInt32 (x : Nat) : Int :=
  if x % 2 ^ 32 < 2 ^ 31 then ((x % 2 ^ 32 : Nat) : Int) else ((x % 2 ^ 32 : Nat) : Int) - 2 ^ 32

/-- Conversion of a signed value to `uint32_t`. -/
def u32 (x : Int) : Nat := (x % 2 ^ 32).toNat

/-- Text printed by `printf("%d", (int32_t)data)`. -/
def print_d (data : Nat) : List Char := (toString (toInt32 data)).toList

/-- Text printed by `printf("%x", data)`. -/
def print_x (data : Nat) : List Char := Nat.toDigits 16 data

/-- Function `platform_write`: the return code paired with the platform after the call. -/
def platform_write (plt : platform_t) (access_type : access_type_t) (addr : Nat)
    (data : Nat) : Int × platform_t :=
  if in_charout plt addr then
    if addr = plt.charout_base then
      (0, { plt with out := plt.out ++ [Char.ofNat (data &&& 0xFF)] })
    else if addr = (plt.charout_base + 4) % 2 ^ 32 then
      (0, { plt with out := plt.out ++ print_d data })
    else if addr = (plt.charout_base + 8) % 2 ^ 32 then
      (0, { plt with out := plt.out ++ print_x data })
    else (0, plt)
  else if out_of_ram plt addr then (-1, plt)
  else
    let offset := addr - plt.memory_base
    match access_type with
    | ACCESS_BYTE =>
      (0, { plt with memory := Function.update plt.memory offset (data % 256) })
    | ACCESS_HALF =>
      if addr &&& 0x1 ≠ 0 then (-1, plt)
      else
        (0, { plt with memory :=
          (Function.update (Function.update plt.memory offset (data % 256))
            (offset + 1) (data / 256 % 256)) })
    | ACCESS_WORD =>
      if addr &&& 0x3 ≠ 0 then (-1, plt)
      else
        (0, { plt with memory :=
          (Function.update (Function.update (Function.update (Function.update plt.memory
            offset (data % 256))
            (offset + 1) (data / 256 % 256))
            (offset + 2) (data / 65536 % 256))
            (offset + 3) (data / 16777216 % 256)) })

/-! ## minirisc.h / minirisc.c -/

/-- The struct `minirisc_t` of minirisc.h; the pointed-to platform is held by value. -/
structure minirisc_t where
  PC : Nat
  IR : Nat
  next_PC : Nat
  regs : Nat → Nat
  platform : platform_t
  halt : Bool
  inst_count : Nat

/-- Cast `(int64_t)x` of a 64-bit pattern. -/
def toInt64 (x : Nat) : Int :=
  if x % 2 ^ 64 < 2 ^ 63 then ((x % 2 ^ 64 : Nat) : Int) else ((x % 2 ^ 64 : Nat) : Int) - 2 ^ 64

/-- Conversion of a signed value to `uint64_t`. -/
def u64 (x : Int) : Nat := (x % 2 ^ 64).toNat

/-- Operands for which `(int32_t)a / (int32_t)b` and `(int32_t)a % (int32_t)b` are
undefined in C although `b` is not 0: `INT_MIN` divided by `-1`. -/
abbrev div_overflow (a b : Nat) : Prop :=
  toInt32 a = -2147483648 ∧ toInt32 b = -1

def OPCODE (inst : Nat) : Nat := inst &&& 0x7F
def RD (inst : Nat) : Nat := (inst >>> 7) &&& 0x1F
def FUNCT3 (inst : Nat) : Nat := (inst >>> 12) &&& 0x7
def RS1 (inst : Nat) : Nat := (inst >>> 15) &&& 0x1F
def RS2 (inst : Nat) : Nat := (inst >>> 20) &&& 0x1F
def FUNCT7 (inst : Nat) : Nat := (inst >>> 25) &&& 0x7F

/-- Helper `sign_extend`: `m = 1U << (bits - 1)`, result `(value ^ m) - m` computed
in 32-bit unsigned arithmetic and returned as `int32_t`. -/
def sign_extend (value : Nat) (bits : Nat) : Int :=
  let m := (1 <<< (bits - 1)) % 2 ^ 32
  toInt32 (((value ^^^ m) + 2 ^ 32 - m) % 2 ^ 32)

def get_imm_I (inst : Nat) : Int :=
  sign_extend (inst >>> 20) 12

def get_imm_S (inst : Nat) : Int :=
  let imm := ((inst >>> 7) &&& 0x1F) ||| ((inst >>> 20) &&& 0xFE0)
  sign_extend imm 12

def get_imm_B (inst : Nat) : Int :=
  let imm := ((inst >>> 7) &&& 0x1E) ||| ((inst >>> 20) &&& 0x7E0) |||
    (((inst <<< 4) % 2 ^ 32) &&& 0x800) ||| ((inst >>> 19) &&& 0x1000)
  sign_extend imm 13

def get_imm_U (inst : Nat) : Int :=
  toInt32 (inst &&& 0xFFFFF000)

def get_imm_J (inst : Nat) : Int :=
  let imm := ((inst >>> 20) &&& 0x7FE) ||| ((inst >>> 9) &&& 0x800) |||
    (inst &&& 0xFF000) ||| ((inst >>> 11) &&& 0x100000)
  sign_extend imm 21

/-- Function `minirisc_new` (allocation succeeds): zeroed struct, then the fields set. -/
def minirisc_new (initial_PC : Nat) (platform : platform_t) : minirisc_t :=
  { PC := initial_PC
    IR := 0
    next_PC := (initial_PC + 4) % 2 ^ 32
    regs := fun _ => 0
    platform := platform
    halt := false
    inst_count := 0 }

/-- Function `minirisc_fetch`: a failed read halts and leaves `IR` as it was. -/
def minirisc_fetch (mr : minirisc_t) : minirisc_t :=
  match platform_read mr.platform ACCESS_WORD mr.PC with
  | some data => { mr with IR := data }
  | none => { mr with halt := true }

/-- Assignment `mr->regs[rd] = v`. -/
def set_reg (mr : minirisc_t) (rd : Nat) (v : Nat) : minirisc_t :=
  { mr with regs := Function.update mr.regs rd v }

/-- Value of `take_branch` after the inner `switch (funct3)` of the `case 0x63` block;
it keeps its initial 0 for funct3 = 2 and 3. -/
def take_branch (mr : minirisc_t) (funct3 rs1 rs2 : Nat) : Bool :=
  if funct3 = 0x0 then decide (mr.regs rs1 = mr.regs rs2)
  else if funct3 = 0x1 then decide (mr.regs rs1 ≠ mr.regs rs2)
  else if funct3 = 0x4 then decide (toInt32 (mr.regs rs1) < toInt32 (mr.regs rs2))
  else if funct3 = 0x5 then decide (toInt32 (mr.regs rs1) ≥ toInt32 (mr.regs rs2))
  else if funct3 = 0x6 then decide (mr.regs rs1 < mr.regs rs2)
  else if funct3 = 0x7 then decide (mr.regs rs1 ≥ mr.regs rs2)
  else false

/-- The `case 0x63` block of `minirisc_decode_and_execute` (branches). -/
def exec_branch (mr : minirisc_t) (inst funct3 rs1 rs2 : Nat) : minirisc_t :=
  let offset := get_imm_B inst
  if take_branch mr funct3 rs1 rs2 then { mr with next_PC := u32 ((mr.PC : Int) + offset) }
  else mr

/-- One arm of the load switch: read, and on success write the converted value to `rd`. -/
def load_with (mr : minirisc_t) (ty : access_type_t) (addr rd : Nat) (conv : Nat → Nat) :
    minirisc_t :=
  match platform_read mr.platform ty addr with
  | some data => set_reg mr rd (conv data)
  | none => mr

/-- The `case 0x03` block of `minirisc_decode_and_execute` (loads). -/
def exec_load (mr : minirisc_t) (inst funct3 rd rs1 : Nat) : minirisc_t :=
  let addr := u32 ((mr.regs rs1 : Int) + get_imm_I inst)
  if funct3 = 0x0 then load_with mr ACCESS_BYTE addr rd (fun data => u32 (sign_extend data 8))
  else if funct3 = 0x1 then
    load_with mr ACCESS_HALF addr rd (fun data => u32 (sign_extend data 16))
  else if funct3 = 0x2 then load_with mr ACCESS_WORD addr rd (fun data => data)
  else if funct3 = 0x4 then load_with mr ACCESS_BYTE addr rd (fun data => data &&& 0xFF)
  else if funct3 = 0x5 then load_with mr ACCESS_HALF addr rd (fun data => data &&& 0xFFFF)
  else mr

/-- The `case 0x23` block of `minirisc_decode_and_execute` (stores); the return code of
`platform_write` is ignored. -/
def exec_store (mr : minirisc_t) (inst funct3 rs1 rs2 : Nat) : minirisc_t :=
  let addr := u32 ((mr.regs rs1 : Int) + get_imm_S inst)
  let data := mr.regs rs2
  if funct3 = 0x0 then
    { mr with platform := (platform_write mr.platform ACCESS_BYTE addr data).2 }
  else if funct3 = 0x1 then
    { mr with platform := (platform_write mr.platform ACCESS_HALF addr data).2 }
  else if funct3 = 0x2 then
    { mr with platform := (platform_write mr.platform ACCESS_WORD addr data).2 }
  else mr

/-- The `case 0x13` block of `minirisc_decode_and_execute` (immediate ALU operations). -/
def exec_op_imm (mr : minirisc_t) (inst funct3 rd rs1 rs2 funct7 : Nat) : minirisc_t :=
  let imm := get_imm_I inst
  if funct3 = 0x0 then set_reg mr rd (u32 ((mr.regs rs1 : Int) + imm))
  else if funct3 = 0x2 then set_reg mr rd (if toInt32 (mr.regs rs1) < imm then 1 else 0)
  else if funct3 = 0x3 then set_reg mr rd (if mr.regs rs1 < u32 imm then 1 else 0)
  else if funct3 = 0x4 then set_reg mr rd (mr.regs rs1 ^^^ u32 imm)
  else if funct3 = 0x6 then set_reg mr rd (mr.regs rs1 ||| u32 imm)
  else if funct3 = 0x7 then set_reg mr rd (mr.regs rs1 &&& u32 imm)
  else if funct3 = 0x1 then set_reg mr rd ((mr.regs rs1 <<< (rs2 &&& 0x1F)) % 2 ^ 32)
  else if funct3 = 0x5 then
    if funct7 = 0x00 then set_reg mr rd (mr.regs rs1 >>> (rs2 &&& 0x1F))
    else set_reg mr rd (u32 (toInt32 (mr.regs rs1) >>> (rs2 &&& 0x1F)))
  else mr

/-- The `case 0x33` block of `minirisc_decode_and_execute` (register ALU operations and
the multiply/divide extension). `none` where the signed division or remainder is
undefined in C. -/
def exec_op (mr : minirisc_t) (funct3 rd rs1 rs2 funct7 : Nat) : Option minirisc_t :=
  let a := mr.regs rs1
  let b := mr.regs rs2
  if funct3 = 0x0 then
    if funct7 = 0x00 then some (set_reg mr rd ((a + b) % 2 ^ 32))
    else if funct7 = 0x20 then some (set_reg mr rd (u32 ((a : Int) - (b : Int))))
    else if funct7 = 0x01 then some (set_reg mr rd ((a * b) % 2 ^ 32))
    else some mr
  else if funct3 = 0x1 then
    if funct7 = 0x00 then some (set_reg mr rd ((a <<< (b &&& 0x1F)) % 2 ^ 32))
    else if funct7 = 0x01 then
      let result : Int := toInt32 a * toInt32 b
      some (set_reg mr rd (u32 (result >>> (32 : Nat))))
    else some mr
  else if funct3 = 0x2 then
    if funct7 = 0x00 then some (set_reg mr rd (if toInt32 a < toInt32 b then 1 else 0))
    else if funct7 = 0x01 then
      let result : Int := toInt64 ((u64 (toInt32 a) * (b % 2 ^ 64)) % 2 ^ 64)
      some (set_reg mr rd (u32 (result >>> (32 : Nat))))
    else some mr
  else if funct3 = 0x3 then
    if funct7 = 0x00 then some (set_reg mr rd (if a < b then 1 else 0))
    else if funct7 = 0x01 then
      let result : Nat := (a * b) % 2 ^ 64
      some (set_reg mr rd ((result >>> 32) % 2 ^ 32))
    else some mr
  else if funct3 = 0x4 then
    if funct7 = 0x00 then some (set_reg mr rd (a ^^^ b))
    else if funct7 = 0x01 then
      if b = 0 then some (set_reg mr rd (u32 (-1)))
      else if div_overflow a b then none
      else some (set_reg mr rd (u32 (Int.tdiv (toInt32 a) (toInt32 b))))
    else some mr
  else if funct3 = 0x5 then
    if funct7 = 0x00 then some (set_reg mr rd (a >>> (b &&& 0x1F)))
    else if funct7 = 0x20 then some (set_reg mr rd (u32 (toInt32 a >>> (b &&& 0x1F))))
    else if funct7 = 0x01 then
      if b = 0 then some (set_reg mr rd 0xFFFFFFFF)
      else some (set_reg mr rd (a / b))
    else some mr
  else if funct3 = 0x6 then
    if funct7 = 0x00 then some (set_reg mr rd (a ||| b))
    else if funct7 = 0x01 then
      if b = 0 then some (set_reg mr rd a)
      else if div_overflow a b then none
      else some (set_reg mr rd (u32 (Int.tmod (toInt32 a) (toInt32 b))))
    else some mr
  else if funct3 = 0x7 then
    if funct7 = 0x00 then some (set_reg mr rd (a &&& b))
    else if funct7 = 0x01 then
      if b = 0 then some (set_reg mr rd a)
      else some (set_reg mr rd (a % b))
    else some mr
  else some mr

/-- The `switch (opcode)` statement of `minirisc_decode_and_execute`, entered after
`next_PC` has received its default. `none` where the register-ALU block is undefined. -/
def exec_switch (mr : minirisc_t) : Option minirisc_t :=
  let inst := mr.IR
  let opcode := OPCODE inst
  let rd := RD inst
  let funct3 := FUNCT3 inst
  let rs1 := RS1 inst
  let rs2 := RS2 inst
  let funct7 := FUNCT7 inst
  if opcode = 0x37 then some (set_reg mr rd (u32 (get_imm_U inst)))
  else if opcode = 0x17 then some (set_reg mr rd (u32 ((mr.PC : Int) + get_imm_U inst)))
  else if opcode = 0x6F then
    let mr1 := set_reg mr rd ((mr.PC + 4) % 2 ^ 32)
    some { mr1 with next_PC := u32 ((mr1.PC : Int) + get_imm_J inst) }
  else if opcode = 0x67 then
    let target := u32 ((mr.regs rs1 : Int) + get_imm_I inst) &&& 0xFFFFFFFE
    let mr1 := set_reg mr rd ((mr.PC + 4) % 2 ^ 32)
    some { mr1 with next_PC := target }
  else if opcode = 0x63 then some (exec_branch mr inst funct3 rs1 rs2)
  else if opcode = 0x03 then some (exec_load mr inst funct3 rd rs1)
  else if opcode = 0x23 then some (exec_store mr inst funct3 rs1 rs2)
  else if opcode = 0x13 then some (exec_op_imm mr inst funct3 rd rs1 rs2 funct7)
  else if opcode = 0x33 then exec_op mr funct3 rd rs1 rs2 funct7
  else if opcode = 0x0F then some mr
  else if opcode = 0x73 then
    if inst = 0x00000073 then some { mr with halt := true }
    else if inst = 0x00100073 then some { mr with halt := true }
    else some mr
  else some { mr with halt := true }

/-- Function `minirisc_decode_and_execute`: default `next_PC = PC + 4`, the opcode
switch, then `regs[0] = 0`. `none` where the switch is undefined. -/
def minirisc_decode_and_execute (mr : minirisc_t) : Option minirisc_t :=
  match exec_switch { mr with next_PC := (mr.PC + 4) % 2 ^ 32 } with
  | some mr1 => some { mr1 with regs := Function.update mr1.regs 0 0 }
  | none => none

/-- Body of the `while (!mr->halt)` loop of `minirisc_run`: fetch, leave on a failed
fetch, otherwise execute, commit `PC` and count the instruction. `none` where the
execution is undefined, in which case nothing after it happens. -/
def minirisc_run_body (mr : minirisc_t) : Option minirisc_t :=
  let mr1 := minirisc_fetch mr
  if mr1.halt then some mr1
  else
    match minirisc_decode_and_execute mr1 with
    | some mr2 =>
      some { mr2 with PC := mr2.next_PC, inst_count := (mr2.inst_count + 1) % 2 ^ 64 }
    | none => none

/-- The `while (!mr->halt)` loop of `minirisc_run`, bounded by `fuel` iterations: the
state when the loop has halted or the fuel is used up, `none` when an iteration is
undefined. -/
def minirisc_run_loop : Nat → minirisc_t → Option minirisc_t
  | 0, mr => some mr
  | fuel + 1, mr =>
    if mr.halt then some mr
    else
      match minirisc_run_body mr with
      | some mr1 => minirisc_run_loop fuel mr1
      | none => none

/-- Append text to the standard output stream. -/
def print_out (mr : minirisc_t) (text : List Char) : minirisc_t :=
  { mr with platform := { mr.platform with out := mr.platform.out ++ text } }

/-- Function `minirisc_run`: banner, loop, closing report. `none` when the loop has not
halted within `fuel` iterations or an iteration is undefined. -/
def minirisc_run (fuel : Nat) (mr : minirisc_t) : Option minirisc_t :=
  match minirisc_run_loop fuel
      (print_out mr "\n=== Starting Mini-RISC Emulator ===\n\n".toList) with
  | some mr1 =>
    if mr1.halt then
      some (print_out (print_out mr1 "\n\n=== Emulator Halted ===\n".toList)
        ("Instructions executed: ".toList ++ (toString mr1.inst_count).toList ++ ['\n']))
    else none
  | none => none

/-! ## Specification predicates and concrete states used by the theorems -/

/-- Reference platform whose first RAM word is the environment call `0x00000073`. -/
def ecall_platform : platform_t :=
  { platform_new with memory := fun i => if i = 0 then 0x73 else 0 }

/-- Processor created by `minirisc_new` at the RAM base over `ecall_platform`. -/
def ecall_state : minirisc_t := minirisc_new 0x80000000 ecall_platform

/-- Address `a` lies in the 12-byte console window `[charout_base, charout_base + 12)`. -/
abbrev in_console_window (plt : platform_t) (a : Nat) : Prop :=
  plt.charout_base ≤ a ∧ a < plt.charout_base + 12

/-- Address `a` lies in RAM `[memory_base, memory_base + memory_size)`. -/
abbrev in_RAM (plt : platform_t) (a : Nat) : Prop :=
  plt.memory_base ≤ a ∧ a < plt.memory_base + plt.memory_size

/-- Configuration invariants of the platform: neither range end overflows 32 bits, the
console window and RAM do not overlap, RAM starts and ends on a word boundary. They
hold for every platform built by `platform_new`. -/
abbrev platform_ok (plt : platform_t) : Prop :=
  plt.charout_base + 12 < 2 ^ 32 ∧
  plt.memory_base + plt.memory_size < 2 ^ 32 ∧
  (plt.charout_base + 12 ≤ plt.memory_base ∨
    plt.memory_base + plt.memory_size ≤ plt.charout_base) ∧
  plt.memory_base % 4 = 0 ∧
  plt.memory_size % 4 = 0

/-- The eleven case labels of the opcode switch. -/
abbrev supported_opcode (op : Nat) : Prop :=
  op = 0x37 ∨ op = 0x17 ∨ op = 0x6F ∨ op = 0x67 ∨ op = 0x63 ∨ op = 0x03 ∨ op = 0x23 ∨
  op = 0x13 ∨ op = 0x33 ∨ op = 0x0F ∨ op = 0x73

/-- Processor created by `minirisc_new` at the RAM base over the zeroed platform. -/
def zero_state : minirisc_t := minirisc_new 0x80000000 platform_new

/-- Processor created by `minirisc_new` at address 0, outside RAM and console. -/
def unmapped_state : minirisc_t := minirisc_new 0 platform_new

/-- Reference platform whose first RAM word is `0x00500093` (ADDI x1, x0, 5). -/
def addi_platform : platform_t :=
  { platform_new with memory := fun i => if i = 0 then 0x93 else if i = 2 then 0x50 else 0 }

/-- Processor created by `minirisc_new` at the RAM base over `addi_platform`. -/
def addi_state : minirisc_t := minirisc_new 0x80000000 addi_platform

/-- Processor created by `minirisc_new` at the misaligned RAM address `0x80000002`. -/
def misaligned_state : minirisc_t := minirisc_new 0x80000002 platform_new

/-- Processor over the zeroed reference platform whose instruction register holds 0. -/
def unknown_opcode_state : minirisc_t :=
  { minirisc_new 0x80000000 platform_new with IR := 0 }

/-- Processor whose instruction register holds `inst`, with x1 = 7 and every other
register 0. -/
def div_zero_state (inst : Nat) : minirisc_t :=
  { minirisc_new 0x80000000 platform_new with
    IR := inst
    regs := fun i => if i = 1 then 7 else 0 }

/-- Processor whose instruction register holds `inst`, with x1 = 0xFFFFFFFF and every
other register 0. -/
def addi_wrap_state (inst : Nat) : minirisc_t :=
  { minirisc_new 0x80000000 platform_new with
    IR := inst
    regs := fun i => if i = 1 then 0xFFFFFFFF else 0 }

/-- The buffer after the four byte stores of an aligned word write at offset `o`. -/
def word_stored (mem : Nat → Nat) (o data : Nat) : Nat → Nat :=
  Function.update (Function.update (Function.update (Function.update mem
    o (data % 256))
    (o + 1) (data / 256 % 256))
    (o + 2) (data / 65536 % 256))
    (o + 3) (data / 16777216 % 256)

/-- Processor whose instruction register holds `inst`, with x1 = 0x80000004, over the
reference platform whose RAM byte at offset 4 is 0x80. -/
def byte_load_state (inst : Nat) : minirisc_t :=
  { minirisc_new 0x80000000
      { platform_new with memory := fun i => if i = 4 then 0x80 else 0 } with
    IR := inst
    regs := fun i => if i = 1 then 0x80000004 else 0 }

/-- Two's-complement signed value of a 32-bit pattern `x < 2^32`. -/
def signed32 (x : Nat) : Int :=
  if x < 2 ^ 31 then (x : Int) else (x : Int) - 2 ^ 32

/-- Processor whose instruction register holds `inst`, at `PC = 0x80000100`, with
x1 = 0xFFFFFFFF (signed -1), x2 = 1 and every other register 0. -/
def branch_state (inst : Nat) : minirisc_t :=
  { minirisc_new 0x80000100 platform_new with
    IR := inst
    regs := fun i => if i = 1 then 0xFFFFFFFF else if i = 2 then 1 else 0 }

/-- Width in bytes of an access. -/
def access_width : access_type_t → Nat
  | ACCESS_BYTE => 1
  | ACCESS_HALF => 2
  | ACCESS_WORD => 4

/-- Address `a` is out of range (outside the console window and RAM) or inside RAM and
misaligned for the access width. -/
abbrev bad_address (plt : platform_t) (ty : access_type_t) (a : Nat) : Prop :=
  (¬ in_console_window plt a ∧ ¬ in_RAM plt a) ∨ (in_RAM plt a ∧ a % access_width ty ≠ 0)

/-- Access width used by the load with the given funct3 (LB, LH, LW, LBU, LHU), after
the case labels of the load switch. -/
def load_access (funct3 : Nat) : Option access_type_t :=
  if funct3 = 0x0 then some ACCESS_BYTE
  else if funct3 = 0x1 then some ACCESS_HALF
  else if funct3 = 0x2 then some ACCESS_WORD
  else if funct3 = 0x4 then some ACCESS_BYTE
  else if funct3 = 0x5 then some ACCESS_HALF
  else none

/-- Access width used by the store with the given funct3 (SB, SH, SW), after the case
labels of the store switch. -/
def store_access (funct3 : Nat) : Option access_type_t :=
  if funct3 = 0x0 then some ACCESS_BYTE
  else if funct3 = 0x1 then some ACCESS_HALF
  else if funct3 = 0x2 then some ACCESS_WORD
  else none

/-- Processor whose instruction register holds `inst`, with x1 = 0x80000001, x2 = 0x55
and x3 = 0x20000000, over the zeroed reference platform. -/
def access_fail_state (inst : Nat) : minirisc_t :=
  { minirisc_new 0x80000000 platform_new with
    IR := inst
    regs := fun i =>
      if i = 1 then 0x80000001 else if i = 2 then 0x55 else if i = 3 then 0x20000000 else 0 }

/-- The `bits`-bit two's-complement pattern of a signed immediate. -/
def imm_pattern (imm : Int) (bits : Nat) : Nat := (imm % 2 ^ bits).toNat

/-- Processor whose instruction register holds `inst`, with x1 = 0xFFFFFFFF (signed -1),
x2 = 0xFFFFFFFE (signed -2) and every other register 0. -/
def mul_high_state (inst : Nat) : minirisc_t :=
  { minirisc_new 0x80000000 platform_new with
    IR := inst
    regs := fun i => if i = 1 then 0xFFFFFFFF else if i = 2 then 0xFFFFFFFE else 0 }

/-- Processor at `PC = 0x80000000` whose instruction register holds `inst`, with
x1 = 0x80000101 and every other register 0. -/
def jalr_state (inst : Nat) : minirisc_t :=
  { minirisc_new 0x80000000 platform_new with
    IR := inst
    regs := fun i => if i = 1 then 0x80000101 else 0 }

/-- Instruction words with a supported opcode for which no case label and no funct7 test
inside the opcode's block matches, so that the block assigns nothing: branches with
funct3 2 or 3, loads with funct3 3, 6 or 7, stores with funct3 above 2, register-ALU words
whose funct7 is none of those tested for the funct3, and SYSTEM words other than
`0x00000073` and `0x00100073`. -/
abbrev falls_through (inst : Nat) : Prop :=
  (OPCODE inst = 0x63 ∧ (FUNCT3 inst = 0x2 ∨ FUNCT3 inst = 0x3)) ∨
  (OPCODE inst = 0x03 ∧ (FUNCT3 inst = 0x3 ∨ FUNCT3 inst = 0x6 ∨ FUNCT3 inst = 0x7)) ∨
  (OPCODE inst = 0x23 ∧ FUNCT3 inst ≠ 0x0 ∧ FUNCT3 inst ≠ 0x1 ∧ FUNCT3 inst ≠ 0x2) ∨
  (OPCODE inst = 0x33 ∧ FUNCT7 inst ≠ 0x00 ∧ FUNCT7 inst ≠ 0x01 ∧
    (FUNCT7 inst = 0x20 → FUNCT3 inst ≠ 0x0 ∧ FUNCT3 inst ≠ 0x5)) ∨
  (OPCODE inst = 0x73 ∧ inst ≠ 0x00000073 ∧ inst ≠ 0x00100073)

/-- Processor over the zeroed reference platform whose instruction register holds
`inst`, with x1 = 7, x2 = 3 and every other register 0. -/
def decode_state (inst : Nat) : minirisc_t :=
  { minirisc_new 0x80000000 platform_new with
    IR := inst
    regs := fun i => if i = 1 then 7 else if i = 2 then 3 else 0 }

/-- The reference platform with every cell at or past `memory_size` set to 0xFF: it
agrees with `platform_new` on the whole backing buffer and differs from it everywhere
beyond. -/
def past_end_platform : platform_t :=
  { platform_new with memory := fun i => if 33554432 ≤ i then 0xFF else 0 }

/-- Word `w` is a multiply/divide word (opcode 0x33, funct7 = 1) with the given funct3
and rd other than x0, whose rs1 and rs2 registers hold `a` and `b` in state `mr`. -/
abbrev muldiv_word (mr : minirisc_t) (w funct3 a b : Nat) : Prop :=
  OPCODE w = 0x33 ∧ FUNCT7 w = 0x01 ∧ FUNCT3 w = funct3 ∧ RD w ≠ 0 ∧
  mr.regs (RS1 w) = a ∧ mr.regs (RS2 w) = b

/-- Value of the destination register after executing word `w` from state `mr`, `none`
where the execution is undefined. -/
def executed_rd (mr : minirisc_t) (w : Nat) : Option Nat :=
  (minirisc_decode_and_execute { mr with IR := w }).map (fun s => s.regs (RD w))

/-- The instruction word held by `mr` is a DIV (funct3 4) or REM (funct3 6) whose
operands are `INT_MIN` and `-1`: the one execution that is undefined in C. -/
abbrev div_undefined (mr : minirisc_t) : Prop :=
  OPCODE mr.IR = 0x33 ∧ FUNCT7 mr.IR = 0x01 ∧ (FUNCT3 mr.IR = 0x4 ∨ FUNCT3 mr.IR = 0x6) ∧
  div_overflow (mr.regs (RS1 mr.IR)) (mr.regs (RS2 mr.IR))

/-- Processor over the zeroed reference platform with x1 = 0xFFFFFFF9 (signed -7),
x2 = 2 and every other register 0. -/
def div_state : minirisc_t :=
  { minirisc_new 0x80000000 platform_new with
    regs := fun i => if i = 1 then 0xFFFFFFF9 else if i = 2 then 2 else 0 }

/-- Processor over the zeroed reference platform with x1 = 0x80000000 (`INT_MIN`),
x2 = 0xFFFFFFFF (`-1`) and every other register 0. -/
def div_trap_state : minirisc_t :=
  { minirisc_new 0x80000000 platform_new with
    regs := fun i => if i = 1 then 0x80000000 else if i = 2 then 0xFFFFFFFF else 0 }

/-- Processor at the RAM base with x1 = 0x80000000 (`INT_MIN`) and x2 = 0xFFFFFFFF (`-1`),
over the reference platform whose first RAM word is `0x0220C1B3` (DIV x3, x1, x2). -/
def div_trap_fetch_state : minirisc_t :=
  { minirisc_new 0x80000000
      { platform_new with
        memory := fun i =>
          if i = 0 then 0xB3 else if i = 1 then 0xC1 else if i = 2 then 0x20
          else if i = 3 then 0x02 else 0 } with
    regs := fun i => if i = 1 then 0x80000000 else if i = 2 then 0xFFFFFFFF else 0 }

/-! ## Shape and definedness of execution -/

theorem exec_op_some_cases (mr : minirisc_t) (funct3 rd rs1 rs2 funct7 : Nat) (s : minirisc_t)
    (h : exec_op mr funct3 rd rs1 rs2 funct7 = some s) :
    s = mr ∨ ∃ v, s = set_reg mr rd v := by
  unfold exec_op at h
  dsimp only at h
  by_cases c0 : funct3 = 0
  · rw [if_pos c0] at h
    split_ifs at h <;> first
        | exact Or.inl (Option.some.inj h).symm
        | exact Or.inr ⟨_, (Option.some.inj h).symm⟩
  rw [if_neg c0] at h
  by_cases c1 : funct3 = 1
  · rw [if_pos c1] at h
    split_ifs at h <;> first
        | exact Or.inl (Option.some.inj h).symm
        | exact Or.inr ⟨_, (Option.some.inj h).symm⟩
  rw [if_neg c1] at h
  by_cases c2 : funct3 = 2
  · rw [if_pos c2] at h
    split_ifs at h <;> first
        | exact Or.inl (Option.some.inj h).symm
        | exact Or.inr ⟨_, (Option.some.inj h).symm⟩
  rw [if_neg c2] at h
  by_cases c3 : funct3 = 3
  · rw [if_pos c3] at h
    split_ifs at h <;> first
        | exact Or.inl (Option.some.inj h).symm
        | exact Or.inr ⟨_, (Option.some.inj h).symm⟩
  rw [if_neg c3] at h
  by_cases c4 : funct3 = 4
  · rw [if_pos c4] at h
    split_ifs at h <;> first
        | exact Or.inl (Option.some.inj h).symm
        | exact Or.inr ⟨_, (Option.some.inj h).symm⟩
  rw [if_neg c4] at h
  by_cases c5 : funct3 = 5
  · rw [if_pos c5] at h
    split_ifs at h <;> first
        | exact Or.inl (Option.some.inj h).symm
        | exact Or.inr ⟨_, (Option.some.inj h).symm⟩
  rw [if_neg c5] at h
  by_cases c6 : funct3 = 6
  · rw [if_pos c6] at h
    split_ifs at h <;> first
        | exact Or.inl (Option.some.inj h).symm
        | exact Or.inr ⟨_, (Option.some.inj h).symm⟩
  rw [if_neg c6] at h
  by_cases c7 : funct3 = 7
  · rw [if_pos c7] at h
    split_ifs at h <;> first
        | exact Or.inl (Option.some.inj h).symm
        | exact Or.inr ⟨_, (Option.some.inj h).symm⟩
  rw [if_neg c7] at h
  exact Or.inl (Option.some.inj h).symm

theorem exec_op_none_iff (mr : minirisc_t) (funct3 rd rs1 rs2 funct7 : Nat) :
    exec_op mr funct3 rd rs1 rs2 funct7 = none ↔
      (funct7 = 0x01 ∧ (funct3 = 0x4 ∨ funct3 = 0x6) ∧
        div_overflow (mr.regs rs1) (mr.regs rs2)) := by
  have hb0 : div_overflow (mr.regs rs1) (mr.regs rs2) → mr.regs rs2 ≠ 0 := by
    rintro ⟨-, h⟩ h0
    rw [h0] at h
    exact absurd h (by decide)
  constructor
  · intro h
    unfold exec_op at h
    dsimp only at h
    by_cases c0 : funct3 = 0
    · rw [if_pos c0] at h
      split_ifs at h
    rw [if_neg c0] at h
    by_cases c1 : funct3 = 1
    · rw [if_pos c1] at h
      split_ifs at h
    rw [if_neg c1] at h
    by_cases c2 : funct3 = 2
    · rw [if_pos c2] at h
      split_ifs at h
    rw [if_neg c2] at h
    by_cases c3 : funct3 = 3
    · rw [if_pos c3] at h
      split_ifs at h
    rw [if_neg c3] at h
    by_cases c4 : funct3 = 4
    · rw [if_pos c4] at h
      split_ifs at h
      exact ⟨by assumption, Or.inl c4, by assumption⟩
    rw [if_neg c4] at h
    by_cases c5 : funct3 = 5
    · rw [if_pos c5] at h
      split_ifs at h
    rw [if_neg c5] at h
    by_cases c6 : funct3 = 6
    · rw [if_pos c6] at h
      split_ifs at h
      exact ⟨by assumption, Or.inr c6, by assumption⟩
    rw [if_neg c6] at h
    by_cases c7 : funct3 = 7
    · rw [if_pos c7] at h
      split_ifs at h
    rw [if_neg c7] at h
    exact absurd h (Option.some_ne_none _)
  · rintro ⟨h7, h3, hov⟩
    have hb := hb0 hov
    rcases h3 with h3 | h3 <;> subst h3 <;> subst h7 <;> simp [exec_op, hb, hov]

theorem exec_switch_op (mr : minirisc_t) (hop : OPCODE mr.IR = 0x33) :
    exec_switch mr =
      exec_op mr (FUNCT3 mr.IR) (RD mr.IR) (RS1 mr.IR) (RS2 mr.IR) (FUNCT7 mr.IR) := by
  simp [exec_switch, hop]

theorem exec_switch_branch (mr : minirisc_t) (hop : OPCODE mr.IR = 0x63) :
    exec_switch mr = some (exec_branch mr mr.IR (FUNCT3 mr.IR) (RS1 mr.IR) (RS2 mr.IR)) := by
  simp [exec_switch, hop]

theorem exec_switch_load (mr : minirisc_t) (hop : OPCODE mr.IR = 0x03) :
    exec_switch mr = some (exec_load mr mr.IR (FUNCT3 mr.IR) (RD mr.IR) (RS1 mr.IR)) := by
  simp [exec_switch, hop]

theorem exec_switch_store (mr : minirisc_t) (hop : OPCODE mr.IR = 0x23) :
    exec_switch mr = some (exec_store mr mr.IR (FUNCT3 mr.IR) (RS1 mr.IR) (RS2 mr.IR)) := by
  simp [exec_switch, hop]

theorem exec_switch_op_imm (mr : minirisc_t) (hop : OPCODE mr.IR = 0x13) :
    exec_switch mr =
      some (exec_op_imm mr mr.IR (FUNCT3 mr.IR) (RD mr.IR) (RS1 mr.IR) (RS2 mr.IR)
        (FUNCT7 mr.IR)) := by
  simp [exec_switch, hop]

theorem exec_switch_jalr (mr : minirisc_t) (hop : OPCODE mr.IR = 0x67) :
    exec_switch mr =
      some { set_reg mr (RD mr.IR) ((mr.PC + 4) % 2 ^ 32) with
        next_PC := u32 ((mr.regs (RS1 mr.IR) : Int) + get_imm_I mr.IR) &&& 0xFFFFFFFE } := by
  simp [exec_switch, hop]

theorem exec_switch_lui (mr : minirisc_t) (hop : OPCODE mr.IR = 0x37) :
    exec_switch mr = some (set_reg mr (RD mr.IR) (u32 (get_imm_U mr.IR))) := by
  simp [exec_switch, hop]

theorem exec_switch_auipc (mr : minirisc_t) (hop : OPCODE mr.IR = 0x17) :
    exec_switch mr =
      some (set_reg mr (RD mr.IR) (u32 ((mr.PC : Int) + get_imm_U mr.IR))) := by
  simp [exec_switch, hop]

theorem exec_switch_jal (mr : minirisc_t) (hop : OPCODE mr.IR = 0x6F) :
    exec_switch mr =
      some { set_reg mr (RD mr.IR) ((mr.PC + 4) % 2 ^ 32) with
        next_PC := u32 ((mr.PC : Int) + get_imm_J mr.IR) } := by
  simp [exec_switch, hop, set_reg]

theorem exec_switch_fence (mr : minirisc_t) (hop : OPCODE mr.IR = 0x0F) :
    exec_switch mr = some mr := by
  simp [exec_switch, hop]

theorem exec_switch_system (mr : minirisc_t) (hop : OPCODE mr.IR = 0x73) :
    exec_switch mr =
      some (if mr.IR = 0x00000073 ∨ mr.IR = 0x00100073 then { mr with halt := true }
        else mr) := by
  have e : exec_switch mr =
      (if mr.IR = 0x00000073 then some { mr with halt := true }
        else if mr.IR = 0x00100073 then some { mr with halt := true } else some mr) := by
    simp [exec_switch, hop]
  rw [e]
  by_cases h1 : mr.IR = 0x00000073
  · rw [if_pos h1, if_pos (Or.inl h1)]
  · rw [if_neg h1]
    by_cases h2 : mr.IR = 0x00100073
    · rw [if_pos h2, if_pos (Or.inr h2)]
    · rw [if_neg h2, if_neg (not_or.mpr ⟨h1, h2⟩)]

theorem exec_switch_default (mr : minirisc_t) (hop : ¬ supported_opcode (OPCODE mr.IR)) :
    exec_switch mr = some { mr with halt := true } := by
  simp only [supported_opcode, not_or] at hop
  obtain ⟨h1, h2, h3, h4, h5, h6, h7, h8, h9, h10, h11⟩ := hop
  simp [exec_switch, h1, h2, h3, h4, h5, h6, h7, h8, h9, h10, h11]

theorem exec_switch_ne_op (mr : minirisc_t) (hop : OPCODE mr.IR ≠ 0x33) :
    ∃ s, exec_switch mr = some s := by
  by_cases hs : supported_opcode (OPCODE mr.IR)
  · have hs2 := hs
    simp only [supported_opcode] at hs2
    rcases hs2 with h | h | h | h | h | h | h | h | h | h | h
    · exact ⟨_, exec_switch_lui mr h⟩
    · exact ⟨_, exec_switch_auipc mr h⟩
    · exact ⟨_, exec_switch_jal mr h⟩
    · exact ⟨_, exec_switch_jalr mr h⟩
    · exact ⟨_, exec_switch_branch mr h⟩
    · exact ⟨_, exec_switch_load mr h⟩
    · exact ⟨_, exec_switch_store mr h⟩
    · exact ⟨_, exec_switch_op_imm mr h⟩
    · exact absurd h hop
    · exact ⟨_, exec_switch_fence mr h⟩
    · exact ⟨_, exec_switch_system mr h⟩
  · exact ⟨_, exec_switch_default mr hs⟩

theorem exec_switch_none_iff (mr : minirisc_t) : exec_switch mr = none ↔ div_undefined mr := by
  by_cases hop : OPCODE mr.IR = 0x33
  · rw [exec_switch_op mr hop, exec_op_none_iff]
    constructor
    · rintro ⟨h7, h3, hov⟩
      exact ⟨hop, h7, h3, hov⟩
    · rintro ⟨-, h7, h3, hov⟩
      exact ⟨h7, h3, hov⟩
  · obtain ⟨s, hs⟩ := exec_switch_ne_op mr hop
    rw [hs]
    constructor
    · intro h
      exact absurd h (Option.some_ne_none _)
    · rintro ⟨h, -⟩
      exact absurd h hop

theorem decode_and_execute_of_switch (mr s1 : minirisc_t)
    (h : exec_switch { mr with next_PC := (mr.PC + 4) % 2 ^ 32 } = some s1) :
    minirisc_decode_and_execute mr = some { s1 with regs := Function.update s1.regs 0 0 } := by
  unfold minirisc_decode_and_execute
  rw [h]

theorem decode_and_execute_some (mr s : minirisc_t)
    (h : minirisc_decode_and_execute mr = some s) :
    ∃ s1, exec_switch { mr with next_PC := (mr.PC + 4) % 2 ^ 32 } = some s1 ∧
      s = { s1 with regs := Function.update s1.regs 0 0 } := by
  unfold minirisc_decode_and_execute at h
  cases hs : exec_switch { mr with next_PC := (mr.PC + 4) % 2 ^ 32 } with
  | none => rw [hs] at h; exact absurd h (by simp)
  | some s1 =>
    rw [hs] at h
    exact ⟨s1, rfl, (Option.some.inj h).symm⟩

theorem decode_and_execute_none_iff (mr : minirisc_t) :
    minirisc_decode_and_execute mr = none ↔ div_undefined mr := by
  have h := exec_switch_none_iff { mr with next_PC := (mr.PC + 4) % 2 ^ 32 }
  have hd : div_undefined { mr with next_PC := (mr.PC + 4) % 2 ^ 32 } ↔ div_undefined mr :=
    Iff.rfl
  rw [← hd, ← h]
  unfold minirisc_decode_and_execute
  cases exec_switch { mr with next_PC := (mr.PC + 4) % 2 ^ 32 } <;> simp

theorem decode_and_execute_defined (mr : minirisc_t) (h : ¬ div_undefined mr) :
    ∃ s, minirisc_decode_and_execute mr = some s := by
  cases hd : minirisc_decode_and_execute mr with
  | none => exact absurd ((decode_and_execute_none_iff mr).mp hd) h
  | some s => exact ⟨s, rfl⟩

/-! ## One iteration of the run loop -/

theorem fetch_some (mr : minirisc_t) (data : Nat)
    (h : platform_read mr.platform ACCESS_WORD mr.PC = some data) :
    minirisc_fetch mr = { mr with IR := data } := by
  simp [minirisc_fetch, h]

theorem fetch_none (mr : minirisc_t)
    (h : platform_read mr.platform ACCESS_WORD mr.PC = none) :
    minirisc_fetch mr = { mr with halt := true } := by
  simp [minirisc_fetch, h]

theorem run_body_fetch_none (mr : minirisc_t)
    (h : platform_read mr.platform ACCESS_WORD mr.PC = none) :
    minirisc_run_body mr = some { mr with halt := true } := by
  simp [minirisc_run_body, fetch_none mr h]

theorem run_body_executed (mr s2 : minirisc_t) (data : Nat) (hrun : mr.halt = false)
    (h : platform_read mr.platform ACCESS_WORD mr.PC = some data)
    (hd : minirisc_decode_and_execute { mr with IR := data } = some s2) :
    minirisc_run_body mr =
      some { s2 with PC := s2.next_PC, inst_count := (s2.inst_count + 1) % 2 ^ 64 } := by
  unfold minirisc_run_body
  rw [fetch_some mr data h]
  dsimp only
  rw [hd]
  simp [hrun]

theorem run_body_undefined (mr : minirisc_t) (data : Nat) (hrun : mr.halt = false)
    (h : platform_read mr.platform ACCESS_WORD mr.PC = some data)
    (hd : minirisc_decode_and_execute { mr with IR := data } = none) :
    minirisc_run_body mr = none := by
  unfold minirisc_run_body
  rw [fetch_some mr data h]
  dsimp only
  rw [hd]
  simp [hrun]

theorem run_body_none (mr : minirisc_t) (hrun : mr.halt = false)
    (h : minirisc_run_body mr = none) :
    ∃ data, platform_read mr.platform ACCESS_WORD mr.PC = some data ∧
      div_undefined { mr with IR := data } := by
  cases hr : platform_read mr.platform ACCESS_WORD mr.PC with
  | none =>
    rw [run_body_fetch_none mr hr] at h
    exact absurd h (Option.some_ne_none _)
  | some data =>
    refine ⟨data, rfl, ?_⟩
    by_contra hdef
    obtain ⟨s2, hd⟩ := decode_and_execute_defined { mr with IR := data } hdef
    rw [run_body_executed mr s2 data hrun hr hd] at h
    exact absurd h (Option.some_ne_none _)

theorem run_loop_none (fuel : Nat) (mr : minirisc_t)
    (h : minirisc_run_loop fuel mr = none) :
    ∃ k, k < fuel ∧ ∃ s, minirisc_run_loop k mr = some s ∧ s.halt = false ∧
      minirisc_run_body s = none := by
  induction fuel generalizing mr with
  | zero =>
    unfold minirisc_run_loop at h
    exact absurd h (Option.some_ne_none _)
  | succ n ih =>
    unfold minirisc_run_loop at h
    by_cases hh : mr.halt = true
    · rw [if_pos hh] at h
      exact absurd h (Option.some_ne_none _)
    · rw [if_neg hh] at h
      have hf : mr.halt = false := by simpa using hh
      cases hb : minirisc_run_body mr with
      | none =>
        refine ⟨0, Nat.succ_pos n, mr, ?_, hf, hb⟩
        unfold minirisc_run_loop
        rfl
      | some m =>
        rw [hb] at h
        obtain ⟨k, hk, s, hs, hsh, hsb⟩ := ih m h
        refine ⟨k + 1, Nat.succ_lt_succ hk, s, ?_, hsh, hsb⟩
        unfold minirisc_run_loop
        rw [if_neg hh, hb]
        exact hs

/-! ## Register 0 -/

theorem decode_and_execute_regs_zero (mr s : minirisc_t)
    (h : minirisc_decode_and_execute mr = some s) : s.regs 0 = 0 := by
  obtain ⟨s1, -, rfl⟩ := decode_and_execute_some mr s h
  simp

theorem fetch_regs (mr : minirisc_t) : (minirisc_fetch mr).regs = mr.regs := by
  unfold minirisc_fetch
  cases platform_read mr.platform ACCESS_WORD mr.PC <;> rfl

theorem run_body_regs_zero (mr s : minirisc_t) (h : mr.regs 0 = 0)
    (hs : minirisc_run_body mr = some s) : s.regs 0 = 0 := by
  unfold minirisc_run_body at hs
  by_cases hh : (minirisc_fetch mr).halt = true
  · simp only [hh, if_true] at hs
    rw [← Option.some.inj hs, fetch_regs, h]
  · simp only [hh] at hs
    cases hd : minirisc_decode_and_execute (minirisc_fetch mr) with
    | none => rw [hd] at hs; exact absurd hs (by simp)
    | some s2 =>
      rw [hd] at hs
      have e := Option.some.inj hs
      rw [← e]
      exact decode_and_execute_regs_zero _ s2 hd

theorem run_loop_regs_zero (fuel : Nat) (mr s : minirisc_t) (h : mr.regs 0 = 0)
    (hs : minirisc_run_loop fuel mr = some s) : s.regs 0 = 0 := by
  induction fuel generalizing mr with
  | zero =>
    simp only [minirisc_run_loop] at hs
    rw [← Option.some.inj hs]
    exact h
  | succ n ih =>
    unfold minirisc_run_loop at hs
    by_cases hh : mr.halt = true
    · simp only [hh, if_true] at hs
      rw [← Option.some.inj hs]
      exact h
    · simp only [hh] at hs
      cases hb : minirisc_run_body mr with
      | none => rw [hb] at hs; exact absurd hs (by simp)
      | some m =>
        rw [hb] at hs
        exact ih m (run_body_regs_zero mr m h hb) hs

/-- C1: whenever `minirisc_decode_and_execute` returns, for any state and instruction
word, register 0 holds 0 in the state it returns; it returns for every state except the
one execution that is undefined in C (DIV or REM of `INT_MIN` by `-1`); from a state
created by `minirisc_new` register 0 is 0 in every state the run loop reaches, whatever
the memory contents; and the run loop fails to produce a state only when, after some
number of iterations, it fetches such an undefined division in a non-halted state. -/
theorem C1_register_zero :
    (∀ mr s : minirisc_t, minirisc_decode_and_execute mr = some s → s.regs 0 = 0) ∧
    (∀ mr : minirisc_t, minirisc_decode_and_execute mr = none ↔ div_undefined mr) ∧
    (∀ (initial_PC : Nat) (platform : platform_t) (fuel : Nat) (s : minirisc_t),
      minirisc_run_loop fuel (minirisc_new initial_PC platform) = some s → s.regs 0 = 0) ∧
    (∀ (fuel : Nat) (mr : minirisc_t), minirisc_run_loop fuel mr = none →
      ∃ k, k < fuel ∧ ∃ s data, minirisc_run_loop k mr = some s ∧ s.halt = false ∧
        platform_read s.platform ACCESS_WORD s.PC = some data ∧
        div_undefined { s with IR := data }) :=
  ⟨decode_and_execute_regs_zero, decode_and_execute_none_iff,
    fun initial_PC platform fuel s hs =>
      run_loop_regs_zero fuel (minirisc_new initial_PC platform) s rfl hs,
    fun fuel mr h =>
      Exists.elim (run_loop_none fuel mr h) (fun k hk =>
        Exists.elim hk.2 (fun s hs =>
          Exists.elim (run_body_none s hs.2.1 hs.2.2) (fun data hd =>
            ⟨k, hk.1, s, data, hs.1, hs.2.1, hd.1, hd.2⟩)))⟩

/-! ## Environment call through the run loop -/

theorem opcode_ecall : OPCODE 0x00000073 = 0x73 := by decide

/-- C2 (as stated) fails: the loop iteration that executes the environment call
at the RAM base halts, yet `inst_count` goes from 0 to 1. -/
theorem C2_counterexample :
    ecall_state.halt = false ∧
    platform_read ecall_state.platform ACCESS_WORD ecall_state.PC = some 0x00000073 ∧
    (minirisc_run_body ecall_state).map (fun s => s.halt) = some true ∧
    ecall_state.inst_count = 0 ∧
    (minirisc_run_body ecall_state).map (fun s => s.inst_count) = some 1 ∧
    (minirisc_run_body ecall_state).map (fun s => s.inst_count) ≠
      some ecall_state.inst_count := by
  decide

/-- C2 (amended): from a non-halted state whose fetch at `PC` returns `0x00000073`, one
run-loop iteration returns a state with the halt flag set, `inst_count` increased by one
(64-bit), `PC + 4` committed, every register other than x0 unchanged with x0 holding 0,
and the platform (every memory byte and the output stream) unchanged. -/
theorem C2_ecall_iteration (mr : minirisc_t) (hrun : mr.halt = false)
    (hfetch : platform_read mr.platform ACCESS_WORD mr.PC = some 0x00000073) :
    ∃ s, minirisc_run_body mr = some s ∧
      s.halt = true ∧
      s.inst_count = (mr.inst_count + 1) % 2 ^ 64 ∧
      s.PC = (mr.PC + 4) % 2 ^ 32 ∧
      s.regs = Function.update mr.regs 0 0 ∧
      s.platform = mr.platform := by
  have hs : exec_switch { mr with IR := 0x00000073, next_PC := (mr.PC + 4) % 2 ^ 32 } =
      some { mr with IR := 0x00000073, next_PC := (mr.PC + 4) % 2 ^ 32, halt := true } := by
    rw [exec_switch_system _ opcode_ecall]
    simp
  have hd := decode_and_execute_of_switch { mr with IR := 0x00000073 } _ hs
  exact ⟨_, run_body_executed mr _ _ hrun hfetch hd, rfl, rfl, rfl, rfl, rfl⟩

theorem C2_ecall_iteration_witness :
    ∃ s, minirisc_run_body ecall_state = some s ∧
      s.halt = true ∧
      s.inst_count = (ecall_state.inst_count + 1) % 2 ^ 64 ∧
      s.PC = (ecall_state.PC + 4) % 2 ^ 32 ∧
      s.regs = Function.update ecall_state.regs 0 0 ∧
      s.platform = ecall_state.platform :=
  C2_ecall_iteration ecall_state (by decide) (by decide)

/-! ## Address ranges and configuration invariants -/

theorem platform_new_ok (mem : Nat → Nat) (out : List Char) :
    platform_ok { platform_new with memory := mem, out := out } := by
  show CHAROUT_BASE + 12 < 2 ^ 32 ∧ MEMORY_BASE + MEMORY_SIZE < 2 ^ 32 ∧
    (CHAROUT_BASE + 12 ≤ MEMORY_BASE ∨ MEMORY_BASE + MEMORY_SIZE ≤ CHAROUT_BASE) ∧
    MEMORY_BASE % 4 = 0 ∧ MEMORY_SIZE % 4 = 0
  decide

theorem and_three (x : Nat) : x &&& 0x3 = x % 4 :=
  Nat.and_pow_two_sub_one_eq_mod x 2

theorem and_one (x : Nat) : x &&& 0x1 = x % 2 :=
  Nat.and_pow_two_sub_one_eq_mod x 1

theorem in_charout_iff (plt : platform_t) (hok : platform_ok plt) (a : Nat) :
    in_charout plt a = true ↔ in_console_window plt a := by
  obtain ⟨h1, -⟩ := hok
  simp only [in_charout, in_console_window, Bool.and_eq_true, decide_eq_true_eq]
  omega

theorem out_of_ram_iff (plt : platform_t) (hok : platform_ok plt) (a : Nat) :
    out_of_ram plt a = false ↔ in_RAM plt a := by
  obtain ⟨-, h2, -⟩ := hok
  simp only [out_of_ram, in_RAM, Bool.or_eq_false_iff, decide_eq_false_iff_not]
  omega

theorem in_RAM_not_console (plt : platform_t) (hok : platform_ok plt) (a : Nat)
    (h : in_RAM plt a) : in_charout plt a = false := by
  have hc := in_charout_iff plt hok a
  obtain ⟨-, -, h3, -⟩ := hok
  cases hb : in_charout plt a with
  | false => rfl
  | true =>
    have := hc.mp hb
    simp only [in_RAM, in_console_window] at h this
    omega

/-! ## Instruction counter -/

theorem load_with_inst_count (mr : minirisc_t) (ty : access_type_t) (addr rd : Nat)
    (conv : Nat → Nat) : (load_with mr ty addr rd conv).inst_count = mr.inst_count := by
  unfold load_with
  cases platform_read mr.platform ty addr <;> rfl

theorem exec_branch_inst_count (mr : minirisc_t) (inst funct3 rs1 rs2 : Nat) :
    (exec_branch mr inst funct3 rs1 rs2).inst_count = mr.inst_count := by
  unfold exec_branch
  split_ifs <;> rfl

theorem exec_load_inst_count (mr : minirisc_t) (inst funct3 rd rs1 : Nat) :
    (exec_load mr inst funct3 rd rs1).inst_count = mr.inst_count := by
  unfold exec_load
  split_ifs <;> simp [load_with_inst_count]

theorem exec_store_inst_count (mr : minirisc_t) (inst funct3 rs1 rs2 : Nat) :
    (exec_store mr inst funct3 rs1 rs2).inst_count = mr.inst_count := by
  unfold exec_store
  split_ifs <;> rfl

theorem exec_op_imm_inst_count (mr : minirisc_t) (inst funct3 rd rs1 rs2 funct7 : Nat) :
    (exec_op_imm mr inst funct3 rd rs1 rs2 funct7).inst_count = mr.inst_count := by
  simp only [exec_op_imm, apply_ite minirisc_t.inst_count, set_reg, ite_self]

theorem exec_switch_inst_count (mr s : minirisc_t) (h : exec_switch mr = some s) :
    s.inst_count = mr.inst_count := by
  by_cases hs : supported_opcode (OPCODE mr.IR)
  · have hs2 := hs
    simp only [supported_opcode] at hs2
    rcases hs2 with c | c | c | c | c | c | c | c | c | c | c
    · rw [exec_switch_lui mr c] at h
      rw [← Option.some.inj h]; rfl
    · rw [exec_switch_auipc mr c] at h
      rw [← Option.some.inj h]; rfl
    · rw [exec_switch_jal mr c] at h
      rw [← Option.some.inj h]; rfl
    · rw [exec_switch_jalr mr c] at h
      rw [← Option.some.inj h]; rfl
    · rw [exec_switch_branch mr c] at h
      rw [← Option.some.inj h]; exact exec_branch_inst_count _ _ _ _ _
    · rw [exec_switch_load mr c] at h
      rw [← Option.some.inj h]; exact exec_load_inst_count _ _ _ _ _
    · rw [exec_switch_store mr c] at h
      rw [← Option.some.inj h]; exact exec_store_inst_count _ _ _ _ _
    · rw [exec_switch_op_imm mr c] at h
      rw [← Option.some.inj h]; exact exec_op_imm_inst_count _ _ _ _ _ _ _
    · rw [exec_switch_op mr c] at h
      rcases exec_op_some_cases _ _ _ _ _ _ _ h with e | ⟨v, e⟩
      · rw [e]
      · rw [e]; rfl
    · rw [exec_switch_fence mr c] at h
      rw [← Option.some.inj h]
    · rw [exec_switch_system mr c] at h
      rw [← Option.some.inj h]
      split_ifs <;> rfl
  · rw [exec_switch_default mr hs] at h
    rw [← Option.some.inj h]

theorem decode_and_execute_inst_count (mr s : minirisc_t)
    (h : minirisc_decode_and_execute mr = some s) : s.inst_count = mr.inst_count := by
  obtain ⟨s1, h1, rfl⟩ := decode_and_execute_some mr s h
  exact exec_switch_inst_count { mr with next_PC := (mr.PC + 4) % 2 ^ 32 } s1 h1

/-- C3 (as stated) fails: from the zeroed reference platform the fetched word 0 has the
unknown opcode 0, the iteration halts, and `inst_count` still goes from 0 to 1. -/
theorem C3_counterexample :
    zero_state.halt = false ∧
    platform_read zero_state.platform ACCESS_WORD zero_state.PC = some 0 ∧
    ¬ supported_opcode (OPCODE 0) ∧
    (minirisc_run_body zero_state).map (fun s => s.halt) = some true ∧
    zero_state.inst_count = 0 ∧
    (minirisc_run_body zero_state).map (fun s => s.inst_count) = some 1 ∧
    (minirisc_run_body zero_state).map (fun s => s.inst_count) ≠
      some zero_state.inst_count := by
  decide

/-- C3 (amended): in one run-loop iteration from a non-halted state, when the fetch
succeeds and the execution of the fetched word is defined (every word except a DIV or
REM of `INT_MIN` by `-1`, which is undefined in C), the iteration returns with
`inst_count` increased by one (64-bit), whether or not the executed instruction halts;
for the undefined division the iteration has no result; when the fetch fails the
iteration returns halted with `inst_count` unchanged; and fetching `0x00500093`
(ADDI x1, x0, 5) with x0 = 0 and `inst_count = 0` gives x1 = 5, `PC` advanced by 4,
`inst_count = 1` and no halt. -/
theorem C3_inst_count (mr : minirisc_t) (hrun : mr.halt = false) :
    (∀ data, platform_read mr.platform ACCESS_WORD mr.PC = some data →
      ¬ div_undefined { mr with IR := data } →
      ∃ s, minirisc_run_body mr = some s ∧
        s.inst_count = (mr.inst_count + 1) % 2 ^ 64) ∧
    (∀ data, platform_read mr.platform ACCESS_WORD mr.PC = some data →
      div_undefined { mr with IR := data } → minirisc_run_body mr = none) ∧
    (platform_read mr.platform ACCESS_WORD mr.PC = none →
      ∃ s, minirisc_run_body mr = some s ∧ s.halt = true ∧
        s.inst_count = mr.inst_count) ∧
    (platform_read mr.platform ACCESS_WORD mr.PC = some 0x00500093 →
      mr.regs 0 = 0 → mr.inst_count = 0 →
      ∃ s, minirisc_run_body mr = some s ∧
        s.regs 1 = 5 ∧
        s.PC = (mr.PC + 4) % 2 ^ 32 ∧
        s.inst_count = 1 ∧
        s.halt = false) := by
  refine ⟨?_, ?_, ?_, ?_⟩
  · intro data h hdef
    obtain ⟨s2, hd⟩ := decode_and_execute_defined { mr with IR := data } hdef
    refine ⟨_, run_body_executed mr s2 data hrun h hd, ?_⟩
    have hc := decode_and_execute_inst_count _ s2 hd
    show (s2.inst_count + 1) % 2 ^ 64 = (mr.inst_count + 1) % 2 ^ 64
    rw [hc]
  · intro data h hundef
    exact run_body_undefined mr data hrun h
      ((decode_and_execute_none_iff { mr with IR := data }).mpr hundef)
  · intro h
    exact ⟨_, run_body_fetch_none mr h, rfl, rfl⟩
  · intro h h0 hc
    have e1 : OPCODE 0x00500093 = 0x13 := by decide
    have e2 : RD 0x00500093 = 1 := by decide
    have e3 : FUNCT3 0x00500093 = 0 := by decide
    have e4 : RS1 0x00500093 = 0 := by decide
    have e5 : get_imm_I 0x00500093 = 5 := by decide
    have e6 : u32 5 = 5 := by decide
    have hs : exec_switch { mr with IR := 0x00500093, next_PC := (mr.PC + 4) % 2 ^ 32 } =
        some (set_reg { mr with IR := 0x00500093, next_PC := (mr.PC + 4) % 2 ^ 32 } 1 5) := by
      rw [exec_switch_op_imm _ e1]
      simp [exec_op_imm, e2, e3, e4, e5, e6, h0]
    have hd := decode_and_execute_of_switch { mr with IR := 0x00500093 } _ hs
    refine ⟨_, run_body_executed mr _ _ hrun h hd, ?_, rfl, ?_, hrun⟩
    · simp [set_reg]
    · show (mr.inst_count + 1) % 2 ^ 64 = 1
      rw [hc]
      rfl

theorem C3_inst_count_witness :
    (∃ s, minirisc_run_body addi_state = some s ∧
      s.inst_count = (addi_state.inst_count + 1) % 2 ^ 64) ∧
    (∃ s, minirisc_run_body unmapped_state = some s ∧ s.halt = true ∧
      s.inst_count = unmapped_state.inst_count) ∧
    (∃ s, minirisc_run_body addi_state = some s ∧
      s.regs 1 = 5 ∧
      s.PC = (addi_state.PC + 4) % 2 ^ 32 ∧
      s.inst_count = 1 ∧
      s.halt = false) ∧
    minirisc_run_body div_trap_fetch_state = none :=
  ⟨(C3_inst_count addi_state (by decide)).1 0x00500093 (by decide) (by decide),
    (C3_inst_count unmapped_state (by decide)).2.2.1 (by decide),
    (C3_inst_count addi_state (by decide)).2.2.2 (by decide) (by decide) (by decide),
    (C3_inst_count div_trap_fetch_state (by decide)).2.1 0x0220C1B3 (by decide) (by decide)⟩

/-! ## Fetch failure -/

/-- C4: when `PC` is outside both the console window and RAM, or inside RAM but not a
multiple of 4, one run-loop iteration returns and only sets the halt flag: `PC`, `IR`,
`next_PC`, the registers, `inst_count` and the platform (memory and output) are
unchanged. -/
theorem C4_fetch_failure (mr : minirisc_t) (hok : platform_ok mr.platform)
    (hpc : (¬ in_console_window mr.platform mr.PC ∧ ¬ in_RAM mr.platform mr.PC) ∨
      (in_RAM mr.platform mr.PC ∧ mr.PC % 4 ≠ 0)) :
    minirisc_run_body mr = some { mr with halt := true } := by
  have hnone : platform_read mr.platform ACCESS_WORD mr.PC = none := by
    rcases hpc with ⟨hc, hr⟩ | ⟨hr, ha⟩
    · have h1 : in_charout mr.platform mr.PC = false := by
        cases hb : in_charout mr.platform mr.PC with
        | false => rfl
        | true => exact absurd ((in_charout_iff _ hok _).mp hb) hc
      have h2 : out_of_ram mr.platform mr.PC = true := by
        cases hb : out_of_ram mr.platform mr.PC with
        | true => rfl
        | false => exact absurd ((out_of_ram_iff _ hok _).mp hb) hr
      simp [platform_read, h1, h2]
    · have h1 := in_RAM_not_console _ hok _ hr
      have h2 := (out_of_ram_iff _ hok _).mpr hr
      simp [platform_read, h1, h2, and_three, ha]
  exact run_body_fetch_none mr hnone

theorem C4_fetch_failure_witness :
    minirisc_run_body misaligned_state = some { misaligned_state with halt := true } ∧
    minirisc_run_body unmapped_state = some { unmapped_state with halt := true } :=
  ⟨C4_fetch_failure misaligned_state (by decide) (Or.inr (by decide)),
    C4_fetch_failure unmapped_state (by decide) (Or.inl (by decide))⟩

/-! ## Unknown opcode -/

/-- C5: in a state with register 0 equal to 0, when the low 7 bits of the instruction
word are none of the eleven supported opcodes, `minirisc_decode_and_execute` returns a
state with the halt flag set and every register and the platform (every memory byte,
and the output stream) unchanged. -/
theorem C5_unknown_opcode (mr : minirisc_t) (h0 : mr.regs 0 = 0)
    (hop : ¬ supported_opcode (OPCODE mr.IR)) :
    ∃ s, minirisc_decode_and_execute mr = some s ∧
      s.halt = true ∧
      s.regs = mr.regs ∧
      (∀ i, i < 32 → s.regs i = mr.regs i) ∧
      s.platform.memory = mr.platform.memory ∧
      s.platform = mr.platform := by
  have hr : Function.update mr.regs 0 0 = mr.regs := by
    have := Function.update_eq_self 0 mr.regs
    rwa [h0] at this
  have hs := exec_switch_default { mr with next_PC := (mr.PC + 4) % 2 ^ 32 } hop
  refine ⟨_, decode_and_execute_of_switch mr _ hs, rfl, hr, ?_, rfl, rfl⟩
  intro i _
  exact congrFun hr i

theorem C5_unknown_opcode_witness :
    ∃ s, minirisc_decode_and_execute unknown_opcode_state = some s ∧
      s.halt = true ∧
      s.regs = unknown_opcode_state.regs ∧
      (∀ i, i < 32 → s.regs i = unknown_opcode_state.regs i) ∧
      s.platform.memory = unknown_opcode_state.platform.memory ∧
      s.platform = unknown_opcode_state.platform :=
  C5_unknown_opcode unknown_opcode_state (by decide) (by decide)

/-! ## Division by zero -/

theorem decode_and_execute_regs_rd (mr s1 : minirisc_t) (rd : Nat) (hrd : rd ≠ 0)
    (h : exec_switch { mr with next_PC := (mr.PC + 4) % 2 ^ 32 } = some s1) :
    ∃ s, minirisc_decode_and_execute mr = some s ∧ s.regs rd = s1.regs rd := by
  refine ⟨_, decode_and_execute_of_switch mr s1 h, ?_⟩
  simp [Function.update, hrd]

theorem decode_and_execute_set_reg (mr : minirisc_t) (rd v : Nat) (hrd : rd ≠ 0)
    (h : exec_switch { mr with next_PC := (mr.PC + 4) % 2 ^ 32 } =
      some (set_reg { mr with next_PC := (mr.PC + 4) % 2 ^ 32 } rd v)) :
    ∃ s, minirisc_decode_and_execute mr = some s ∧ s.regs rd = v := by
  obtain ⟨s, hs, hr⟩ := decode_and_execute_regs_rd mr _ rd hrd h
  refine ⟨s, hs, ?_⟩
  rw [hr]
  simp [set_reg]

/-- C6: for a register-ALU word (opcode 0x33, funct7 = 1) whose rs2 register holds 0
and whose rd is not x0, the execution returns and: DIV (funct3 4) and DIVU (funct3 5)
write `0xFFFFFFFF` to rd, REM (funct3 6) and REMU (funct3 7) write the dividend held by
rs1 to rd. -/
theorem C6_division_by_zero (mr : minirisc_t) (hop : OPCODE mr.IR = 0x33)
    (hf7 : FUNCT7 mr.IR = 0x01) (hz : mr.regs (RS2 mr.IR) = 0) (hrd : RD mr.IR ≠ 0) :
    (FUNCT3 mr.IR = 0x4 →
      ∃ s, minirisc_decode_and_execute mr = some s ∧ s.regs (RD mr.IR) = 0xFFFFFFFF) ∧
    (FUNCT3 mr.IR = 0x5 →
      ∃ s, minirisc_decode_and_execute mr = some s ∧ s.regs (RD mr.IR) = 0xFFFFFFFF) ∧
    (FUNCT3 mr.IR = 0x6 →
      ∃ s, minirisc_decode_and_execute mr = some s ∧
        s.regs (RD mr.IR) = mr.regs (RS1 mr.IR)) ∧
    (FUNCT3 mr.IR = 0x7 →
      ∃ s, minirisc_decode_and_execute mr = some s ∧
        s.regs (RD mr.IR) = mr.regs (RS1 mr.IR)) := by
  have e : u32 (-1) = 0xFFFFFFFF := by decide
  have hs := exec_switch_op { mr with next_PC := (mr.PC + 4) % 2 ^ 32 } hop
  refine ⟨?_, ?_, ?_, ?_⟩ <;> intro hf3 <;>
    refine decode_and_execute_set_reg mr _ _ hrd ?_ <;>
    rw [hs] <;> simp [exec_op, hf7, hf3, hz, e]

theorem C6_division_by_zero_witness :
    (∃ s, minirisc_decode_and_execute (div_zero_state 0x0220C1B3) = some s ∧
      s.regs 3 = 0xFFFFFFFF) ∧
    (∃ s, minirisc_decode_and_execute (div_zero_state 0x0220D1B3) = some s ∧
      s.regs 3 = 0xFFFFFFFF) ∧
    (∃ s, minirisc_decode_and_execute (div_zero_state 0x0220E1B3) = some s ∧
      s.regs 3 = 7) ∧
    (∃ s, minirisc_decode_and_execute (div_zero_state 0x0220F1B3) = some s ∧
      s.regs 3 = 7) :=
  ⟨(C6_division_by_zero (div_zero_state 0x0220C1B3) (by decide) (by decide) (by decide)
      (by decide)).1 (by decide),
    (C6_division_by_zero (div_zero_state 0x0220D1B3) (by decide) (by decide) (by decide)
      (by decide)).2.1 (by decide),
    (C6_division_by_zero (div_zero_state 0x0220E1B3) (by decide) (by decide) (by decide)
      (by decide)).2.2.1 (by decide),
    (C6_division_by_zero (div_zero_state 0x0220F1B3) (by decide) (by decide) (by decide)
      (by decide)).2.2.2 (by decide)⟩

/-! ## Wrap-around of ADDI -/

theorem u32_cast (x : Int) : ((u32 x : Nat) : Int) = x % 2 ^ 32 := by
  unfold u32
  omega

/-- C7 (as stated) fails: the word `0x00100093` is ADDI x1, x0, 1 (rd = 1, rs1 = 0,
immediate 1); executed with x1 = 0xFFFFFFFF and x0 = 0 it leaves x1 = 1, not 0. -/
theorem C7_counterexample :
    (addi_wrap_state 0x00100093).regs 1 = 0xFFFFFFFF ∧
    (addi_wrap_state 0x00100093).regs 0 = 0 ∧
    OPCODE 0x00100093 = 0x13 ∧ FUNCT3 0x00100093 = 0 ∧ RD 0x00100093 = 1 ∧
    RS1 0x00100093 = 0 ∧ get_imm_I 0x00100093 = 1 ∧
    (minirisc_decode_and_execute (addi_wrap_state 0x00100093)).map (fun s => s.regs 1) =
      some 1 ∧
    (minirisc_decode_and_execute (addi_wrap_state 0x00100093)).map (fun s => s.regs 1) ≠
      some 0 := by
  decide

/-- C7 (amended): ADDI with rd other than x0 returns with `(rs1 + I-immediate) mod 2^32`
in rd; executing ADDI x1, x1, 1 (word `0x00108093`) with x1 preset to 0xFFFFFFFF yields
x1 = 0, and the word `0x00100093` (ADDI x1, x0, 1) with x0 = 0 yields x1 = 1 whatever
x1 held. -/
theorem C7_addi_wraps (mr : minirisc_t) :
    (OPCODE mr.IR = 0x13 → FUNCT3 mr.IR = 0x0 → RD mr.IR ≠ 0 →
      ∃ s, minirisc_decode_and_execute mr = some s ∧
        ((s.regs (RD mr.IR) : Nat) : Int) =
          ((mr.regs (RS1 mr.IR) : Int) + get_imm_I mr.IR) % 2 ^ 32) ∧
    (mr.IR = 0x00108093 → mr.regs 1 = 0xFFFFFFFF →
      ∃ s, minirisc_decode_and_execute mr = some s ∧ s.regs 1 = 0) ∧
    (mr.IR = 0x00100093 → mr.regs 0 = 0 →
      ∃ s, minirisc_decode_and_execute mr = some s ∧ s.regs 1 = 1) := by
  have hgen : ∀ m : minirisc_t, OPCODE m.IR = 0x13 → FUNCT3 m.IR = 0x0 → RD m.IR ≠ 0 →
      ∃ s, minirisc_decode_and_execute m = some s ∧
        s.regs (RD m.IR) = u32 ((m.regs (RS1 m.IR) : Int) + get_imm_I m.IR) := by
    intro m hop hf3 hrd
    refine decode_and_execute_set_reg m _ _ hrd ?_
    rw [exec_switch_op_imm { m with next_PC := (m.PC + 4) % 2 ^ 32 } hop]
    simp [exec_op_imm, hf3]
  refine ⟨?_, ?_, ?_⟩
  · intro hop hf3 hrd
    obtain ⟨s, hs, hr⟩ := hgen mr hop hf3 hrd
    exact ⟨s, hs, by rw [hr, u32_cast]⟩
  · intro hir h1
    have e1 : OPCODE mr.IR = 0x13 := by rw [hir]; decide
    have e2 : FUNCT3 mr.IR = 0x0 := by rw [hir]; decide
    have e3 : RD mr.IR = 1 := by rw [hir]; decide
    have e4 : RS1 mr.IR = 1 := by rw [hir]; decide
    have e5 : get_imm_I mr.IR = 1 := by rw [hir]; decide
    obtain ⟨s, hs, hr⟩ := hgen mr e1 e2 (by rw [e3]; decide)
    rw [e3, e4, e5, h1] at hr
    refine ⟨s, hs, ?_⟩
    rw [hr]
    decide
  · intro hir h0
    have e1 : OPCODE mr.IR = 0x13 := by rw [hir]; decide
    have e2 : FUNCT3 mr.IR = 0x0 := by rw [hir]; decide
    have e3 : RD mr.IR = 1 := by rw [hir]; decide
    have e4 : RS1 mr.IR = 0 := by rw [hir]; decide
    have e5 : get_imm_I mr.IR = 1 := by rw [hir]; decide
    obtain ⟨s, hs, hr⟩ := hgen mr e1 e2 (by rw [e3]; decide)
    rw [e3, e4, e5, h0] at hr
    refine ⟨s, hs, ?_⟩
    rw [hr]
    decide

theorem C7_addi_wraps_witness :
    (∃ s, minirisc_decode_and_execute (addi_wrap_state 0x00108093) = some s ∧
      ((s.regs 1 : Nat) : Int) =
        (((addi_wrap_state 0x00108093).regs 1 : Int) + 1) % 2 ^ 32) ∧
    (∃ s, minirisc_decode_and_execute (addi_wrap_state 0x00108093) = some s ∧
      s.regs 1 = 0) ∧
    (∃ s, minirisc_decode_and_execute (addi_wrap_state 0x00100093) = some s ∧
      s.regs 1 = 1) :=
  ⟨(C7_addi_wraps (addi_wrap_state 0x00108093)).1 (by decide) (by decide) (by decide),
    (C7_addi_wraps (addi_wrap_state 0x00108093)).2.1 (by decide) (by decide),
    (C7_addi_wraps (addi_wrap_state 0x00100093)).2.2 (by decide) (by decide)⟩

/-! ## Reads and writes inside RAM -/

theorem platform_read_byte_ram (plt : platform_t) (hok : platform_ok plt) (a : Nat)
    (hr : in_RAM plt a) :
    platform_read plt ACCESS_BYTE a = some (plt.memory (a - plt.memory_base)) := by
  simp [platform_read, in_RAM_not_console plt hok a hr, (out_of_ram_iff plt hok a).mpr hr]

theorem platform_read_half_ram (plt : platform_t) (hok : platform_ok plt) (a : Nat)
    (hr : in_RAM plt a) :
    platform_read plt ACCESS_HALF a =
      if a % 2 ≠ 0 then none
      else some (plt.memory (a - plt.memory_base) +
        256 * plt.memory (a - plt.memory_base + 1)) := by
  simp [platform_read, in_RAM_not_console plt hok a hr, (out_of_ram_iff plt hok a).mpr hr,
    and_one]

theorem platform_read_word_ram (plt : platform_t) (hok : platform_ok plt) (a : Nat)
    (hr : in_RAM plt a) :
    platform_read plt ACCESS_WORD a =
      if a % 4 ≠ 0 then none
      else some (plt.memory (a - plt.memory_base) +
        256 * plt.memory (a - plt.memory_base + 1) +
        65536 * plt.memory (a - plt.memory_base + 2) +
        16777216 * plt.memory (a - plt.memory_base + 3)) := by
  simp [platform_read, in_RAM_not_console plt hok a hr, (out_of_ram_iff plt hok a).mpr hr,
    and_three]

theorem platform_write_word_ram (plt : platform_t) (hok : platform_ok plt) (a v : Nat)
    (hr : in_RAM plt a) (ha : a % 4 = 0) :
    platform_write plt ACCESS_WORD a v =
      (0, { plt with memory := word_stored plt.memory (a - plt.memory_base) v }) := by
  simp [platform_write, in_RAM_not_console plt hok a hr, (out_of_ram_iff plt hok a).mpr hr,
    and_three, ha, word_stored]

theorem word_stored_at (mem : Nat → Nat) (o data : Nat) :
    word_stored mem o data o = data % 256 ∧
    word_stored mem o data (o + 1) = data / 256 % 256 ∧
    word_stored mem o data (o + 2) = data / 65536 % 256 ∧
    word_stored mem o data (o + 3) = data / 16777216 % 256 := by
  simp [word_stored, Function.update_apply]

/-! ## Word store, then loads of every width -/

/-- C8: for a platform satisfying the configuration invariants, a 4-byte-aligned
address `a` inside RAM and a 32-bit value `v`, `platform_write(Word, a, v)` succeeds and
afterwards the Word read at `a` returns `v`, the Half reads at `a` and `a + 2` return
the low and high 16 bits of `v` (which reconstruct `v`), and the Byte read at `a + i`,
`i` = 0..3, returns byte `i` of `v` in little-endian order. -/
theorem C8_word_roundtrip (plt : platform_t) (hok : platform_ok plt) (a v : Nat)
    (hr : in_RAM plt a) (ha : a % 4 = 0) (hv : v < 2 ^ 32) :
    (platform_write plt ACCESS_WORD a v).1 = 0 ∧
    platform_read (platform_write plt ACCESS_WORD a v).2 ACCESS_WORD a = some v ∧
    platform_read (platform_write plt ACCESS_WORD a v).2 ACCESS_HALF a =
      some (v % 65536) ∧
    platform_read (platform_write plt ACCESS_WORD a v).2 ACCESS_HALF (a + 2) =
      some (v / 65536) ∧
    v % 65536 + 65536 * (v / 65536) = v ∧
    (∀ i, i < 4 →
      platform_read (platform_write plt ACCESS_WORD a v).2 ACCESS_BYTE (a + i) =
        some (v / 256 ^ i % 256)) := by
  rw [platform_write_word_ram plt hok a v hr ha]
  have hok2 : platform_ok { plt with memory := word_stored plt.memory (a - plt.memory_base) v } :=
    hok
  obtain ⟨m0, m1, m2, m3⟩ := word_stored_at plt.memory (a - plt.memory_base) v
  obtain ⟨-, -, -, hb4, hs4⟩ := hok
  have hlo : plt.memory_base ≤ a := hr.1
  have hhi : a < plt.memory_base + plt.memory_size := hr.2
  have hend : a + 4 ≤ plt.memory_base + plt.memory_size := by omega
  have hrk : ∀ k, k < 4 →
      in_RAM { plt with memory := word_stored plt.memory (a - plt.memory_base) v } (a + k) := by
    intro k hk
    constructor
    · show plt.memory_base ≤ a + k
      omega
    · show a + k < plt.memory_base + plt.memory_size
      omega
  have hoff : ∀ k, a + k - plt.memory_base = a - plt.memory_base + k := by
    intro k; omega
  refine ⟨rfl, ?_, ?_, ?_, ?_, ?_⟩
  · rw [platform_read_word_ram _ hok2 a (hrk 0 (by decide))]
    simp only [m0, m1, m2, m3]
    rw [if_neg (by omega)]
    congr 1
    omega
  · rw [platform_read_half_ram _ hok2 a (hrk 0 (by decide))]
    simp only [m0, m1]
    rw [if_neg (by omega)]
    congr 1
    omega
  · rw [platform_read_half_ram _ hok2 (a + 2) (hrk 2 (by decide))]
    simp only [hoff, m2, m3]
    rw [if_neg (by omega)]
    congr 1
    omega
  · omega
  · intro i hi
    rw [platform_read_byte_ram _ hok2 (a + i) (hrk i hi)]
    simp only [hoff]
    interval_cases i
    · simpa using m0
    · simpa using m1
    · simpa using m2
    · simpa using m3

theorem C8_word_roundtrip_witness :
    (platform_write platform_new ACCESS_WORD 0x80000010 0x11223344).1 = 0 ∧
    platform_read (platform_write platform_new ACCESS_WORD 0x80000010 0x11223344).2
      ACCESS_WORD 0x80000010 = some 0x11223344 ∧
    platform_read (platform_write platform_new ACCESS_WORD 0x80000010 0x11223344).2
      ACCESS_HALF 0x80000010 = some (0x11223344 % 65536) ∧
    platform_read (platform_write platform_new ACCESS_WORD 0x80000010 0x11223344).2
      ACCESS_HALF (0x80000010 + 2) = some (0x11223344 / 65536) ∧
    0x11223344 % 65536 + 65536 * (0x11223344 / 65536) = 0x11223344 ∧
    (∀ i, i < 4 →
      platform_read (platform_write platform_new ACCESS_WORD 0x80000010 0x11223344).2
        ACCESS_BYTE (0x80000010 + i) = some (0x11223344 / 256 ^ i % 256)) :=
  C8_word_roundtrip platform_new (by decide) 0x80000010 0x11223344 (by decide) (by decide)
    (by decide)

/-! ## Byte loads -/

set_option maxRecDepth 8192 in
theorem xor_sign_bit_8 : ∀ b, b < 256 → b ^^^ 128 = if b < 128 then b + 128 else b - 128 := by
  decide

theorem sign_extend_8 (b : Nat) (hb : b < 256) :
    u32 (sign_extend b 8) = if b < 0x80 then b else 0xFFFFFF00 + b := by
  have hx := xor_sign_bit_8 b hb
  have hm : (1 <<< (8 - 1)) % 2 ^ 32 = 128 := by decide
  unfold sign_extend
  simp only [hm, hx]
  unfold u32 toInt32
  split_ifs <;> omega

theorem and_ff (x : Nat) : x &&& 0xFF = x % 256 :=
  Nat.and_pow_two_sub_one_eq_mod x 8

/-- C9: for a load word (opcode 0x03) with rd other than x0 whose effective address
`rs1 + I-immediate` (mod 2^32) lies in RAM and holds the byte `b`, the execution returns
and: LB (funct3 0) writes the 8-bit sign extension of `b` to rd (`b` below 0x80, else
`0xFFFFFF00 + b`) and LBU (funct3 4) writes `b`; for `b = 0x80` these are `0xFFFFFF80`
and `0x00000080`. -/
theorem C9_byte_load (mr : minirisc_t) (hok : platform_ok mr.platform)
    (hop : OPCODE mr.IR = 0x03) (hrd : RD mr.IR ≠ 0) (b : Nat) (hb : b < 256)
    (hr : in_RAM mr.platform (u32 ((mr.regs (RS1 mr.IR) : Int) + get_imm_I mr.IR)))
    (hm : mr.platform.memory
      (u32 ((mr.regs (RS1 mr.IR) : Int) + get_imm_I mr.IR) - mr.platform.memory_base) = b) :
    (FUNCT3 mr.IR = 0x0 →
      ∃ s, minirisc_decode_and_execute mr = some s ∧
        s.regs (RD mr.IR) = if b < 0x80 then b else 0xFFFFFF00 + b) ∧
    (FUNCT3 mr.IR = 0x4 →
      ∃ s, minirisc_decode_and_execute mr = some s ∧ s.regs (RD mr.IR) = b) ∧
    (b = 0x80 → FUNCT3 mr.IR = 0x0 →
      ∃ s, minirisc_decode_and_execute mr = some s ∧ s.regs (RD mr.IR) = 0xFFFFFF80) ∧
    (b = 0x80 → FUNCT3 mr.IR = 0x4 →
      ∃ s, minirisc_decode_and_execute mr = some s ∧ s.regs (RD mr.IR) = 0x00000080) := by
  have hread := platform_read_byte_ram mr.platform hok _ hr
  rw [hm] at hread
  have hs := exec_switch_load { mr with next_PC := (mr.PC + 4) % 2 ^ 32 } hop
  have hlb : FUNCT3 mr.IR = 0x0 →
      ∃ s, minirisc_decode_and_execute mr = some s ∧
        s.regs (RD mr.IR) = if b < 0x80 then b else 0xFFFFFF00 + b := by
    intro hf3
    rw [← sign_extend_8 b hb]
    refine decode_and_execute_set_reg mr _ _ hrd ?_
    rw [hs]
    simp [exec_load, load_with, hf3, hread]
  have hlbu : FUNCT3 mr.IR = 0x4 →
      ∃ s, minirisc_decode_and_execute mr = some s ∧ s.regs (RD mr.IR) = b := by
    intro hf3
    have hand : b &&& 0xFF = b := by rw [and_ff]; omega
    refine decode_and_execute_set_reg mr _ _ hrd ?_
    rw [hs]
    simp [exec_load, load_with, hf3, hread, hand]
  refine ⟨hlb, hlbu, ?_, ?_⟩
  · intro hb80 hf3
    obtain ⟨s, hs1, hr1⟩ := hlb hf3
    refine ⟨s, hs1, ?_⟩
    rw [hr1, hb80]
    decide
  · intro hb80 hf3
    obtain ⟨s, hs1, hr1⟩ := hlbu hf3
    exact ⟨s, hs1, by rw [hr1, hb80]⟩

theorem C9_byte_load_witness :
    (∃ s, minirisc_decode_and_execute (byte_load_state 0x00008103) = some s ∧
      s.regs 2 = 0xFFFFFF80) ∧
    (∃ s, minirisc_decode_and_execute (byte_load_state 0x0000C103) = some s ∧
      s.regs 2 = 0x00000080) :=
  ⟨(C9_byte_load (byte_load_state 0x00008103) (by decide) (by decide) (by decide) 0x80
      (by decide) (by decide) (by decide)).2.2.1 rfl (by decide),
    (C9_byte_load (byte_load_state 0x0000C103) (by decide) (by decide) (by decide) 0x80
      (by decide) (by decide) (by decide)).2.2.2 rfl (by decide)⟩

/-! ## Alignment -/

theorem platform_write_failed (plt : platform_t) (ty : access_type_t) (x d : Nat)
    (h : (platform_write plt ty x d).1 ≠ 0) : (platform_write plt ty x d).2 = plt := by
  cases ty <;> unfold platform_write at h ⊢ <;> dsimp only at h ⊢ <;>
    split_ifs at h ⊢ <;> first | rfl | exact absurd rfl h

/-- C10: for a platform satisfying the configuration invariants and an address `a`
inside RAM: a Word read or write at `a` fails when `a` is not a multiple of 4, a Half
read or write fails when `a` is odd, each failed write returns -1 with the platform
(every memory byte) unchanged, and Byte reads and writes at `a` succeed; moreover any
`platform_write` with a nonzero return code leaves the platform unchanged. -/
theorem C10_alignment (plt : platform_t) (hok : platform_ok plt) (a v : Nat)
    (hr : in_RAM plt a) :
    (a % 4 ≠ 0 →
      platform_read plt ACCESS_WORD a = none ∧
      platform_write plt ACCESS_WORD a v = (-1, plt)) ∧
    (a % 2 ≠ 0 →
      platform_read plt ACCESS_HALF a = none ∧
      platform_write plt ACCESS_HALF a v = (-1, plt)) ∧
    (platform_read plt ACCESS_BYTE a = some (plt.memory (a - plt.memory_base)) ∧
      (platform_write plt ACCESS_BYTE a v).1 = 0) ∧
    (∀ ty x d, (platform_write plt ty x d).1 ≠ 0 → (platform_write plt ty x d).2 = plt) := by
  have h1 := in_RAM_not_console plt hok a hr
  have h2 := (out_of_ram_iff plt hok a).mpr hr
  refine ⟨?_, ?_, ?_, ?_⟩
  · intro ha
    constructor
    · rw [platform_read_word_ram plt hok a hr, if_pos ha]
    · simp [platform_write, h1, h2, and_three, ha]
  · intro ha
    constructor
    · rw [platform_read_half_ram plt hok a hr, if_pos ha]
    · simp [platform_write, h1, h2, and_one, ha]
  · constructor
    · exact platform_read_byte_ram plt hok a hr
    · simp [platform_write, h1, h2]
  · exact fun ty x d h => platform_write_failed plt ty x d h

theorem C10_alignment_witness :
    (platform_read platform_new ACCESS_WORD 0x80000001 = none ∧
      platform_write platform_new ACCESS_WORD 0x80000001 0x11223344 = (-1, platform_new)) ∧
    (platform_read platform_new ACCESS_HALF 0x80000001 = none ∧
      platform_write platform_new ACCESS_HALF 0x80000001 0x11223344 = (-1, platform_new)) ∧
    (platform_read platform_new ACCESS_BYTE 0x80000001 =
        some (platform_new.memory (0x80000001 - platform_new.memory_base)) ∧
      (platform_write platform_new ACCESS_BYTE 0x80000001 0x11223344).1 = 0) :=
  ⟨(C10_alignment platform_new (by decide) 0x80000001 0x11223344 (by decide)).1 (by decide),
    (C10_alignment platform_new (by decide) 0x80000001 0x11223344 (by decide)).2.1
      (by decide),
    (C10_alignment platform_new (by decide) 0x80000001 0x11223344 (by decide)).2.2.1⟩

/-! ## Branches -/

theorem toInt32_eq_signed32 (x : Nat) (hx : x < 2 ^ 32) : toInt32 x = signed32 x := by
  unfold toInt32 signed32
  rw [Nat.mod_eq_of_lt hx]

theorem exec_branch_regs (mr : minirisc_t) (inst funct3 rs1 rs2 : Nat) :
    (exec_branch mr inst funct3 rs1 rs2).regs = mr.regs := by
  unfold exec_branch
  split_ifs <;> rfl

theorem decode_and_execute_branch (mr : minirisc_t) (hop : OPCODE mr.IR = 0x63) :
    ∃ s, minirisc_decode_and_execute mr = some s ∧
      s.next_PC =
        (if take_branch mr (FUNCT3 mr.IR) (RS1 mr.IR) (RS2 mr.IR) = true then
          u32 ((mr.PC : Int) + get_imm_B mr.IR) else (mr.PC + 4) % 2 ^ 32) ∧
      s.regs = Function.update mr.regs 0 0 := by
  have htb : take_branch { mr with next_PC := (mr.PC + 4) % 2 ^ 32 } (FUNCT3 mr.IR)
      (RS1 mr.IR) (RS2 mr.IR) = take_branch mr (FUNCT3 mr.IR) (RS1 mr.IR) (RS2 mr.IR) := rfl
  have h := exec_switch_branch { mr with next_PC := (mr.PC + 4) % 2 ^ 32 } hop
  refine ⟨_, decode_and_execute_of_switch mr _ h, ?_, ?_⟩
  · simp only [exec_branch, htb]
    split_ifs <;> simp
  · simp only [exec_branch, htb]
    split_ifs <;> simp

/-- C11: for every branch word (opcode 0x63) over 32-bit register values the execution
returns, and `next_PC` is `PC + B-immediate` (mod 2^32) exactly when the relation named
by funct3 holds and `PC + 4` otherwise: BEQ equal, BNE not equal, BLT and BGE signed
less-than and greater-or-equal on the two's-complement values, BLTU and BGEU unsigned;
funct3 2 and 3 never branch; and every register other than x0 is unchanged, x0
holding 0. -/
theorem C11_branch (mr : minirisc_t) (hop : OPCODE mr.IR = 0x63)
    (ha : mr.regs (RS1 mr.IR) < 2 ^ 32) (hb : mr.regs (RS2 mr.IR) < 2 ^ 32) :
    ∃ s, minirisc_decode_and_execute mr = some s ∧
      (FUNCT3 mr.IR = 0x0 → s.next_PC =
        if mr.regs (RS1 mr.IR) = mr.regs (RS2 mr.IR)
        then u32 ((mr.PC : Int) + get_imm_B mr.IR) else (mr.PC + 4) % 2 ^ 32) ∧
      (FUNCT3 mr.IR = 0x1 → s.next_PC =
        if mr.regs (RS1 mr.IR) ≠ mr.regs (RS2 mr.IR)
        then u32 ((mr.PC : Int) + get_imm_B mr.IR) else (mr.PC + 4) % 2 ^ 32) ∧
      (FUNCT3 mr.IR = 0x4 → s.next_PC =
        if signed32 (mr.regs (RS1 mr.IR)) < signed32 (mr.regs (RS2 mr.IR))
        then u32 ((mr.PC : Int) + get_imm_B mr.IR) else (mr.PC + 4) % 2 ^ 32) ∧
      (FUNCT3 mr.IR = 0x5 → s.next_PC =
        if signed32 (mr.regs (RS1 mr.IR)) ≥ signed32 (mr.regs (RS2 mr.IR))
        then u32 ((mr.PC : Int) + get_imm_B mr.IR) else (mr.PC + 4) % 2 ^ 32) ∧
      (FUNCT3 mr.IR = 0x6 → s.next_PC =
        if mr.regs (RS1 mr.IR) < mr.regs (RS2 mr.IR)
        then u32 ((mr.PC : Int) + get_imm_B mr.IR) else (mr.PC + 4) % 2 ^ 32) ∧
      (FUNCT3 mr.IR = 0x7 → s.next_PC =
        if mr.regs (RS1 mr.IR) ≥ mr.regs (RS2 mr.IR)
        then u32 ((mr.PC : Int) + get_imm_B mr.IR) else (mr.PC + 4) % 2 ^ 32) ∧
      (FUNCT3 mr.IR = 0x2 ∨ FUNCT3 mr.IR = 0x3 → s.next_PC = (mr.PC + 4) % 2 ^ 32) ∧
      (∀ i, i ≠ 0 → s.regs i = mr.regs i) ∧
      s.regs 0 = 0 := by
  obtain ⟨s, hs, hpc, hregs⟩ := decode_and_execute_branch mr hop
  refine ⟨s, hs, ?_⟩
  rw [hpc, hregs]
  have sa := toInt32_eq_signed32 _ ha
  have sb := toInt32_eq_signed32 _ hb
  refine ⟨?_, ?_, ?_, ?_, ?_, ?_, ?_, ?_, ?_⟩
  · intro hf; simp [take_branch, hf]
  · intro hf; simp [take_branch, hf]
  · intro hf; simp [take_branch, hf, sa, sb]
  · intro hf; simp [take_branch, hf, sa, sb]
  · intro hf; simp [take_branch, hf]
  · intro hf; simp [take_branch, hf]
  · intro hf; rcases hf with hf | hf <;> simp [take_branch, hf]
  · intro i hi; simp [Function.update, hi]
  · simp

theorem C11_branch_witness :
    (∃ s, minirisc_decode_and_execute (branch_state 0x00208863) = some s ∧
      s.next_PC = 0x80000104) ∧
    (∃ s, minirisc_decode_and_execute (branch_state 0x0020C863) = some s ∧
      s.next_PC = 0x80000110) ∧
    (∃ s, minirisc_decode_and_execute (branch_state 0x0020E863) = some s ∧
      s.next_PC = 0x80000104) :=
  ⟨Exists.elim (C11_branch (branch_state 0x00208863) (by decide) (by decide) (by decide))
      (fun s h => ⟨s, h.1, h.2.1 (by decide)⟩),
    Exists.elim (C11_branch (branch_state 0x0020C863) (by decide) (by decide) (by decide))
      (fun s h => ⟨s, h.1, h.2.2.2.1 (by decide)⟩),
    Exists.elim (C11_branch (branch_state 0x0020E863) (by decide) (by decide) (by decide))
      (fun s h => ⟨s, h.1, h.2.2.2.2.2.1 (by decide)⟩)⟩

/-! ## Failing loads and stores -/

theorem bad_address_fails (plt : platform_t) (hok : platform_ok plt) (ty : access_type_t)
    (a : Nat) (hbad : bad_address plt ty a) :
    platform_read plt ty a = none ∧ ∀ v, platform_write plt ty a v = (-1, plt) := by
  rcases hbad with ⟨hc, hr⟩ | ⟨hr, ha⟩
  · have h1 : in_charout plt a = false := by
      cases hb : in_charout plt a with
      | false => rfl
      | true => exact absurd ((in_charout_iff _ hok _).mp hb) hc
    have h2 : out_of_ram plt a = true := by
      cases hb : out_of_ram plt a with
      | true => rfl
      | false => exact absurd ((out_of_ram_iff _ hok _).mp hb) hr
    simp [platform_read, platform_write, h1, h2]
  · have h1 := in_RAM_not_console _ hok _ hr
    have h2 := (out_of_ram_iff _ hok _).mpr hr
    cases ty with
    | ACCESS_BYTE => exact absurd (Nat.mod_one a) ha
    | ACCESS_HALF =>
      have ha2 : a % 2 ≠ 0 := ha
      simp [platform_read, platform_write, h1, h2, and_one, ha2]
    | ACCESS_WORD =>
      have ha4 : a % 4 ≠ 0 := ha
      simp [platform_read, platform_write, h1, h2, and_three, ha4]

theorem exec_load_failed (mr : minirisc_t) (inst funct3 rd rs1 : Nat) (ty : access_type_t)
    (hty : load_access funct3 = some ty)
    (hread : platform_read mr.platform ty (u32 ((mr.regs rs1 : Int) + get_imm_I inst)) = none) :
    exec_load mr inst funct3 rd rs1 = mr := by
  unfold load_access at hty
  unfold exec_load
  split_ifs at hty <;> cases hty <;> simp [*, load_with]

theorem exec_store_failed (mr : minirisc_t) (inst funct3 rs1 rs2 : Nat) (ty : access_type_t)
    (hty : store_access funct3 = some ty)
    (hwrite : platform_write mr.platform ty (u32 ((mr.regs rs1 : Int) + get_imm_S inst))
      (mr.regs rs2) = (-1, mr.platform)) :
    exec_store mr inst funct3 rs1 rs2 = mr := by
  unfold store_access at hty
  unfold exec_store
  split_ifs at hty <;> cases hty <;> simp [*]

/-- C12: under the configuration invariants, a load (LB/LH/LW/LBU/LHU) whose effective
address `rs1 + I-immediate` is out of range or misaligned for its width returns with the
halt flag as it was, every register other than x0 unchanged (x0 holding 0), the platform
(memory and output) unchanged and `next_PC = PC + 4`; a store (SB/SH/SW) whose effective
address `rs1 + S-immediate` is out of range or misaligned does the same. -/
theorem C12_failed_access (mr : minirisc_t) (hok : platform_ok mr.platform) :
    (OPCODE mr.IR = 0x03 → ∀ ty, load_access (FUNCT3 mr.IR) = some ty →
      bad_address mr.platform ty (u32 ((mr.regs (RS1 mr.IR) : Int) + get_imm_I mr.IR)) →
      ∃ s, minirisc_decode_and_execute mr = some s ∧
        s.regs = Function.update mr.regs 0 0 ∧
        s.halt = mr.halt ∧
        s.platform = mr.platform ∧
        s.next_PC = (mr.PC + 4) % 2 ^ 32) ∧
    (OPCODE mr.IR = 0x23 → ∀ ty, store_access (FUNCT3 mr.IR) = some ty →
      bad_address mr.platform ty (u32 ((mr.regs (RS1 mr.IR) : Int) + get_imm_S mr.IR)) →
      ∃ s, minirisc_decode_and_execute mr = some s ∧
        s.regs = Function.update mr.regs 0 0 ∧
        s.halt = mr.halt ∧
        s.platform = mr.platform ∧
        s.next_PC = (mr.PC + 4) % 2 ^ 32) := by
  constructor
  · intro hop ty hty hbad
    have hread := (bad_address_fails _ hok ty _ hbad).1
    have hs := exec_switch_load { mr with next_PC := (mr.PC + 4) % 2 ^ 32 } hop
    have hl := exec_load_failed { mr with next_PC := (mr.PC + 4) % 2 ^ 32 } mr.IR
      (FUNCT3 mr.IR) (RD mr.IR) (RS1 mr.IR) ty hty hread
    rw [hl] at hs
    exact ⟨_, decode_and_execute_of_switch mr _ hs, rfl, rfl, rfl, rfl⟩
  · intro hop ty hty hbad
    have hwrite := (bad_address_fails _ hok ty _ hbad).2 (mr.regs (RS2 mr.IR))
    have hs := exec_switch_store { mr with next_PC := (mr.PC + 4) % 2 ^ 32 } hop
    have hl := exec_store_failed { mr with next_PC := (mr.PC + 4) % 2 ^ 32 } mr.IR
      (FUNCT3 mr.IR) (RS1 mr.IR) (RS2 mr.IR) ty hty hwrite
    rw [hl] at hs
    exact ⟨_, decode_and_execute_of_switch mr _ hs, rfl, rfl, rfl, rfl⟩

theorem C12_failed_access_witness :
    (∃ s, minirisc_decode_and_execute (access_fail_state 0x0000A203) = some s ∧
      s.regs = Function.update (access_fail_state 0x0000A203).regs 0 0 ∧
      s.halt = (access_fail_state 0x0000A203).halt ∧
      s.platform = (access_fail_state 0x0000A203).platform ∧
      s.next_PC = ((access_fail_state 0x0000A203).PC + 4) % 2 ^ 32) ∧
    (∃ s, minirisc_decode_and_execute (access_fail_state 0x0021A023) = some s ∧
      s.regs = Function.update (access_fail_state 0x0021A023).regs 0 0 ∧
      s.halt = (access_fail_state 0x0021A023).halt ∧
      s.platform = (access_fail_state 0x0021A023).platform ∧
      s.next_PC = ((access_fail_state 0x0021A023).PC + 4) % 2 ^ 32) :=
  ⟨(C12_failed_access (access_fail_state 0x0000A203) (by decide)).1 (by decide)
      ACCESS_WORD (by decide) (Or.inr (by decide)),
    (C12_failed_access (access_fail_state 0x0021A023) (by decide)).2 (by decide)
      ACCESS_WORD (by decide) (Or.inl (by decide))⟩

/-! ## Console window writes -/

/-- C13: under the configuration invariants, for every access width and value `v`,
`platform_write` at `charout_base` returns 0 and yields the same platform with exactly
one character, the low 8 bits of `v`, appended to the output stream (memory untouched),
so a value with low byte `0x41` appends the single character `A`; a write at a window
address other than `charout_base`, `+4` and `+8` returns 0 and changes nothing. -/
theorem C13_console_write (plt : platform_t) (hok : platform_ok plt) (ty : access_type_t)
    (v : Nat) :
    platform_write plt ty plt.charout_base v =
      (0, { plt with out := plt.out ++ [Char.ofNat (v % 256)] }) ∧
    (platform_write plt ty plt.charout_base v).2.memory = plt.memory ∧
    (platform_write plt ty plt.charout_base v).2.out.length = plt.out.length + 1 ∧
    (v % 256 = 0x41 → (platform_write plt ty plt.charout_base v).2.out = plt.out ++ ['A']) ∧
    (∀ a, in_console_window plt a → a ≠ plt.charout_base → a ≠ plt.charout_base + 4 →
      a ≠ plt.charout_base + 8 → platform_write plt ty a v = (0, plt)) := by
  have hbase : in_charout plt plt.charout_base = true :=
    (in_charout_iff plt hok _).mpr ⟨Nat.le_refl _, by omega⟩
  have hw : platform_write plt ty plt.charout_base v =
      (0, { plt with out := plt.out ++ [Char.ofNat (v % 256)] }) := by
    simp [platform_write, hbase, and_ff]
  obtain ⟨h1, -⟩ := hok
  refine ⟨hw, ?_, ?_, ?_, ?_⟩
  · rw [hw]
  · rw [hw]; simp
  · intro hv
    rw [hw, hv]
  · intro a ha h0 h4 h8
    have hin : in_charout plt a = true := by
      simp only [in_charout, Bool.and_eq_true, decide_eq_true_eq]
      simp only [in_console_window] at ha
      omega
    have e4 : ¬ a = (plt.charout_base + 4) % 2 ^ 32 := by omega
    have e8 : ¬ a = (plt.charout_base + 8) % 2 ^ 32 := by omega
    unfold platform_write
    rw [if_pos hin, if_neg h0, if_neg e4, if_neg e8]

theorem C13_console_write_witness :
    (platform_write platform_new ACCESS_BYTE platform_new.charout_base 0x41).2.out =
      platform_new.out ++ ['A'] ∧
    platform_write platform_new ACCESS_BYTE 0x10000001 0x41 = (0, platform_new) :=
  ⟨(C13_console_write platform_new (by decide) ACCESS_BYTE 0x41).2.2.2.1 (by decide),
    (C13_console_write platform_new (by decide) ACCESS_BYTE 0x41).2.2.2.2 0x10000001
      (by decide) (by decide) (by decide) (by decide)⟩

/-! ## Immediate decoding -/

theorem xor_two_pow (x n : Nat) (h : x < 2 ^ (n + 1)) :
    x ^^^ 2 ^ n = if x < 2 ^ n then x + 2 ^ n else x - 2 ^ n := by
  have hpow : 2 ^ (n + 1) = 2 * 2 ^ n := by rw [Nat.pow_succ]; omega
  split_ifs with hlt
  · apply Nat.eq_of_testBit_eq
    intro j
    have e : x + 2 ^ n = 2 ^ n * 1 ||| x := by
      rw [← Nat.mul_add_lt_is_or hlt 1]; omega
    rw [e]
    simp only [Nat.mul_one, Nat.testBit_xor, Nat.testBit_or, Nat.testBit_two_pow]
    by_cases hj : n = j
    · subst hj; simp [Nat.testBit_lt_two_pow hlt]
    · simp [hj]
  · have hy : x - 2 ^ n < 2 ^ n := by omega
    have e : x = 2 ^ n * 1 ||| (x - 2 ^ n) := by
      rw [← Nat.mul_add_lt_is_or hy 1]; omega
    apply Nat.eq_of_testBit_eq
    intro j
    conv_lhs => rw [e]
    simp only [Nat.mul_one, Nat.testBit_xor, Nat.testBit_or, Nat.testBit_two_pow]
    by_cases hj : n = j
    · subst hj; simp [Nat.testBit_lt_two_pow hy]
    · simp [hj]

theorem sign_extend_13 (x : Nat) (hx : x < 8192) :
    sign_extend x 13 = if x < 4096 then (x : Int) else (x : Int) - 8192 := by
  have hm : (1 <<< (13 - 1)) % 2 ^ 32 = 4096 := by decide
  have hxor := xor_two_pow x 12 (by omega)
  have h12 : (2 : Nat) ^ 12 = 4096 := by norm_num
  rw [h12] at hxor
  unfold sign_extend
  simp only [hm, hxor]
  unfold toInt32
  split_ifs <;> omega

theorem sign_extend_21 (x : Nat) (hx : x < 2097152) :
    sign_extend x 21 = if x < 1048576 then (x : Int) else (x : Int) - 2097152 := by
  have hm : (1 <<< (21 - 1)) % 2 ^ 32 = 1048576 := by decide
  have hxor := xor_two_pow x 20 (by omega)
  have h20 : (2 : Nat) ^ 20 = 1048576 := by norm_num
  rw [h20] at hxor
  unfold sign_extend
  simp only [hm, hxor]
  unfold toInt32
  split_ifs <;> omega

/-- C14: for every instruction word, the 13-bit pattern of `get_imm_B` has bit 12 equal
to inst[31], bit 11 to inst[7], bits 10:5 to inst[30:25], bits 4:1 to inst[11:8] and
bit 0 clear; `get_imm_B` is the sign extension of that pattern (bit 12 is the sign),
hence even and within [-4096, 4094]. -/
theorem C14_get_imm_B (inst : Nat) :
    (imm_pattern (get_imm_B inst) 13).testBit 12 = inst.testBit 31 ∧
    (imm_pattern (get_imm_B inst) 13).testBit 11 = inst.testBit 7 ∧
    (∀ k, k < 6 → (imm_pattern (get_imm_B inst) 13).testBit (5 + k) = inst.testBit (25 + k)) ∧
    (∀ k, k < 4 → (imm_pattern (get_imm_B inst) 13).testBit (1 + k) = inst.testBit (8 + k)) ∧
    (imm_pattern (get_imm_B inst) 13).testBit 0 = false ∧
    imm_pattern (get_imm_B inst) 13 < 2 ^ 13 ∧
    get_imm_B inst =
      (if (imm_pattern (get_imm_B inst) 13).testBit 12
        then (imm_pattern (get_imm_B inst) 13 : Int) - 2 ^ 13
        else (imm_pattern (get_imm_B inst) 13 : Int)) ∧
    get_imm_B inst % 2 = 0 ∧
    -4096 ≤ get_imm_B inst ∧ get_imm_B inst ≤ 4094 := by
  have hlt : ((inst >>> 7) &&& 0x1E) ||| ((inst >>> 20) &&& 0x7E0) |||
      (((inst <<< 4) % 2 ^ 32) &&& 0x800) ||| ((inst >>> 19) &&& 0x1000) < 2 ^ 13 :=
    Nat.or_lt_two_pow (Nat.or_lt_two_pow (Nat.or_lt_two_pow
      (Nat.and_lt_two_pow _ (by decide)) (Nat.and_lt_two_pow _ (by decide)))
      (Nat.and_lt_two_pow _ (by decide))) (Nat.and_lt_two_pow _ (by decide))
  have hbit : ∀ j, (((inst >>> 7) &&& 0x1E) ||| ((inst >>> 20) &&& 0x7E0) |||
      (((inst <<< 4) % 2 ^ 32) &&& 0x800) ||| ((inst >>> 19) &&& 0x1000)).testBit j =
      (inst.testBit (7 + j) && Nat.testBit 0x1E j || inst.testBit (20 + j) && Nat.testBit 0x7E0 j ||
        (decide (j < 32) && (decide (j ≥ 4) && inst.testBit (j - 4))) && Nat.testBit 0x800 j ||
        inst.testBit (19 + j) && Nat.testBit 0x1000 j) := by
    intro j
    simp only [Nat.testBit_or, Nat.testBit_and, Nat.testBit_shiftRight, Nat.testBit_shiftLeft,
      Nat.testBit_mod_two_pow]
  generalize himm : ((inst >>> 7) &&& 0x1E) ||| ((inst >>> 20) &&& 0x7E0) |||
      (((inst <<< 4) % 2 ^ 32) &&& 0x800) ||| ((inst >>> 19) &&& 0x1000) = imm at hlt hbit
  have hget : get_imm_B inst = if imm < 4096 then (imm : Int) else (imm : Int) - 8192 := by
    unfold get_imm_B
    simp only [himm]
    exact sign_extend_13 imm hlt
  have hp : imm_pattern (get_imm_B inst) 13 = imm := by
    unfold imm_pattern
    rw [hget]
    split_ifs <;> omega
  have h12 : imm.testBit 12 = decide (4096 ≤ imm) := by
    rw [Nat.testBit_to_div_mod]
    have : imm / 2 ^ 12 % 2 = 1 ↔ 4096 ≤ imm := by omega
    simp only [this]
  have h0 : imm.testBit 0 = false := by
    rw [hbit 0]
    simp [Nat.testBit_to_div_mod (x := 30), Nat.testBit_to_div_mod (x := 2016),
      Nat.testBit_to_div_mod (x := 2048), Nat.testBit_to_div_mod (x := 4096)]
  have heven : imm % 2 = 0 := by
    rw [Nat.testBit_zero] at h0
    have := of_decide_eq_false h0
    omega
  rw [hp]
  refine ⟨?_, ?_, ?_, ?_, h0, hlt, ?_, ?_, ?_, ?_⟩
  · rw [hbit 12]
    simp [Nat.testBit_to_div_mod (x := 30), Nat.testBit_to_div_mod (x := 2016),
      Nat.testBit_to_div_mod (x := 2048), Nat.testBit_to_div_mod (x := 4096)]
  · rw [hbit 11]
    simp [Nat.testBit_to_div_mod (x := 30), Nat.testBit_to_div_mod (x := 2016),
      Nat.testBit_to_div_mod (x := 2048), Nat.testBit_to_div_mod (x := 4096)]
  · intro k hk
    rw [hbit (5 + k)]
    interval_cases k <;>
      simp [Nat.testBit_to_div_mod (x := 30), Nat.testBit_to_div_mod (x := 2016),
        Nat.testBit_to_div_mod (x := 2048), Nat.testBit_to_div_mod (x := 4096)]
  · intro k hk
    rw [hbit (1 + k)]
    interval_cases k <;>
      simp [Nat.testBit_to_div_mod (x := 30), Nat.testBit_to_div_mod (x := 2016),
        Nat.testBit_to_div_mod (x := 2048), Nat.testBit_to_div_mod (x := 4096)]
  · rw [hget, h12]
    by_cases hc : imm < 4096
    · have hc2 : ¬ 4096 ≤ imm := by omega
      simp [hc, hc2]
    · have hc2 : 4096 ≤ imm := by omega
      simp [hc, hc2]
  · rw [hget]; split_ifs <;> omega
  · rw [hget]; split_ifs <;> omega
  · rw [hget]; split_ifs <;> omega

/-- C15: for every instruction word, the 21-bit pattern of `get_imm_J` has bit 20 equal
to inst[31], bits 19:12 to inst[19:12], bit 11 to inst[20], bits 10:1 to inst[30:21] and
bit 0 clear; `get_imm_J` is the sign extension of that pattern (bit 20 is the sign),
hence even and within [-1048576, 1048574]. -/
theorem C15_get_imm_J (inst : Nat) :
    (imm_pattern (get_imm_J inst) 21).testBit 20 = inst.testBit 31 ∧
    (∀ k, k < 8 → (imm_pattern (get_imm_J inst) 21).testBit (12 + k) = inst.testBit (12 + k)) ∧
    (imm_pattern (get_imm_J inst) 21).testBit 11 = inst.testBit 20 ∧
    (∀ k, k < 10 → (imm_pattern (get_imm_J inst) 21).testBit (1 + k) = inst.testBit (21 + k)) ∧
    (imm_pattern (get_imm_J inst) 21).testBit 0 = false ∧
    imm_pattern (get_imm_J inst) 21 < 2 ^ 21 ∧
    get_imm_J inst =
      (if (imm_pattern (get_imm_J inst) 21).testBit 20
        then (imm_pattern (get_imm_J inst) 21 : Int) - 2 ^ 21
        else (imm_pattern (get_imm_J inst) 21 : Int)) ∧
    get_imm_J inst % 2 = 0 ∧
    -1048576 ≤ get_imm_J inst ∧ get_imm_J inst ≤ 1048574 := by
  have hlt : ((inst >>> 20) &&& 0x7FE) ||| ((inst >>> 9) &&& 0x800) |||
      (inst &&& 0xFF000) ||| ((inst >>> 11) &&& 0x100000) < 2 ^ 21 :=
    Nat.or_lt_two_pow (Nat.or_lt_two_pow (Nat.or_lt_two_pow
      (Nat.and_lt_two_pow _ (by decide)) (Nat.and_lt_two_pow _ (by decide)))
      (Nat.and_lt_two_pow _ (by decide))) (Nat.and_lt_two_pow _ (by decide))
  have hbit : ∀ j, (((inst >>> 20) &&& 0x7FE) ||| ((inst >>> 9) &&& 0x800) |||
      (inst &&& 0xFF000) ||| ((inst >>> 11) &&& 0x100000)).testBit j =
      (inst.testBit (20 + j) && Nat.testBit 0x7FE j || inst.testBit (9 + j) && Nat.testBit 0x800 j ||
        inst.testBit j && Nat.testBit 0xFF000 j ||
        inst.testBit (11 + j) && Nat.testBit 0x100000 j) := by
    intro j
    simp only [Nat.testBit_or, Nat.testBit_and, Nat.testBit_shiftRight]
  generalize himm : ((inst >>> 20) &&& 0x7FE) ||| ((inst >>> 9) &&& 0x800) |||
      (inst &&& 0xFF000) ||| ((inst >>> 11) &&& 0x100000) = imm at hlt hbit
  have hget : get_imm_J inst = if imm < 1048576 then (imm : Int) else (imm : Int) - 2097152 := by
    unfold get_imm_J
    simp only [himm]
    exact sign_extend_21 imm hlt
  have hp : imm_pattern (get_imm_J inst) 21 = imm := by
    unfold imm_pattern
    rw [hget]
    split_ifs <;> omega
  have h20 : imm.testBit 20 = decide (1048576 ≤ imm) := by
    rw [Nat.testBit_to_div_mod]
    have : imm / 2 ^ 20 % 2 = 1 ↔ 1048576 ≤ imm := by omega
    simp only [this]
  have h0 : imm.testBit 0 = false := by
    rw [hbit 0]
    simp [Nat.testBit_to_div_mod (x := 2046), Nat.testBit_to_div_mod (x := 2048),
      Nat.testBit_to_div_mod (x := 1044480), Nat.testBit_to_div_mod (x := 1048576)]
  have heven : imm % 2 = 0 := by
    rw [Nat.testBit_zero] at h0
    have := of_decide_eq_false h0
    omega
  rw [hp]
  refine ⟨?_, ?_, ?_, ?_, h0, hlt, ?_, ?_, ?_, ?_⟩
  · rw [hbit 20]
    simp [Nat.testBit_to_div_mod (x := 2046), Nat.testBit_to_div_mod (x := 2048),
      Nat.testBit_to_div_mod (x := 1044480), Nat.testBit_to_div_mod (x := 1048576)]
  · intro k hk
    rw [hbit (12 + k)]
    interval_cases k <;>
      simp [Nat.testBit_to_div_mod (x := 2046), Nat.testBit_to_div_mod (x := 2048),
        Nat.testBit_to_div_mod (x := 1044480), Nat.testBit_to_div_mod (x := 1048576)]
  · rw [hbit 11]
    simp [Nat.testBit_to_div_mod (x := 2046), Nat.testBit_to_div_mod (x := 2048),
      Nat.testBit_to_div_mod (x := 1044480), Nat.testBit_to_div_mod (x := 1048576)]
  · intro k hk
    rw [hbit (1 + k)]
    interval_cases k <;>
      simp [Nat.testBit_to_div_mod (x := 2046), Nat.testBit_to_div_mod (x := 2048),
        Nat.testBit_to_div_mod (x := 1044480), Nat.testBit_to_div_mod (x := 1048576)]
  · rw [hget, h20]
    by_cases hc : imm < 1048576
    · have hc2 : ¬ 1048576 ≤ imm := by omega
      simp [hc, hc2]
    · have hc2 : 1048576 ≤ imm := by omega
      simp [hc, hc2]
  · rw [hget]; split_ifs <;> omega
  · rw [hget]; split_ifs <;> omega
  · rw [hget]; split_ifs <;> omega

/-! ## Multiply-high -/

theorem signed32_bounds (x : Nat) (hx : x < 2 ^ 32) :
    -2147483648 ≤ signed32 x ∧ signed32 x < 2147483648 := by
  unfold signed32
  split_ifs <;> omega

theorem mulhsu_product (sa : Int) (b : Nat) (h1 : -2147483648 ≤ sa) (h2 : sa < 2147483648)
    (hb : b < 2 ^ 32) : toInt64 ((u64 sa * (b % 2 ^ 64)) % 2 ^ 64) = sa * (b : Int) := by
  have hb64 : b % 2 ^ 64 = b := Nat.mod_eq_of_lt (by omega)
  have hlo : -9223372036854775808 ≤ sa * (b : Int) := by nlinarith
  have hhi : sa * (b : Int) < 9223372036854775808 := by nlinarith
  have hu : ((u64 sa : Nat) : Int) = sa % 2 ^ 64 := by
    unfold u64
    omega
  have hcast : (((u64 sa * b) % 2 ^ 64 : Nat) : Int) = (sa * (b : Int)) % 2 ^ 64 := by
    push_cast
    rw [hu]
    have e : (2 : Int) ^ 64 = 18446744073709551616 := by norm_num
    rw [e, Int.mul_emod, Int.emod_emod_of_dvd _ (dvd_refl _), ← Int.mul_emod]
  rw [hb64]
  generalize sa * (b : Int) = P at hlo hhi hcast
  generalize (u64 sa * b) % 2 ^ 64 = n at hcast
  unfold toInt64
  split_ifs <;> omega

/-- C16: for a register-ALU word (opcode 0x33, funct7 = 1) with rd other than x0 over
32-bit register values `a` (rs1) and `b` (rs2), the execution returns and: MULH
(funct3 1) writes `floor(s(a) * s(b) / 2^32) mod 2^32`, MULHSU (funct3 2) writes
`floor(s(a) * u(b) / 2^32) mod 2^32` and MULHU (funct3 3) writes `floor(a * b / 2^32)`,
with `s` the two's-complement signed value. -/
theorem C16_mul_high (mr : minirisc_t) (hop : OPCODE mr.IR = 0x33)
    (hf7 : FUNCT7 mr.IR = 0x01) (hrd : RD mr.IR ≠ 0)
    (ha : mr.regs (RS1 mr.IR) < 2 ^ 32) (hb : mr.regs (RS2 mr.IR) < 2 ^ 32) :
    (FUNCT3 mr.IR = 0x1 →
      ∃ s, minirisc_decode_and_execute mr = some s ∧
        ((s.regs (RD mr.IR) : Nat) : Int) =
          (signed32 (mr.regs (RS1 mr.IR)) * signed32 (mr.regs (RS2 mr.IR)) / 2 ^ 32)
            % 2 ^ 32) ∧
    (FUNCT3 mr.IR = 0x2 →
      ∃ s, minirisc_decode_and_execute mr = some s ∧
        ((s.regs (RD mr.IR) : Nat) : Int) =
          (signed32 (mr.regs (RS1 mr.IR)) * (mr.regs (RS2 mr.IR) : Int) / 2 ^ 32)
            % 2 ^ 32) ∧
    (FUNCT3 mr.IR = 0x3 →
      ∃ s, minirisc_decode_and_execute mr = some s ∧
        s.regs (RD mr.IR) = mr.regs (RS1 mr.IR) * mr.regs (RS2 mr.IR) / 2 ^ 32) := by
  have hs := exec_switch_op { mr with next_PC := (mr.PC + 4) % 2 ^ 32 } hop
  have sa := toInt32_eq_signed32 _ ha
  have sb := toInt32_eq_signed32 _ hb
  have hsh : ∀ x : Int, x >>> (32 : Nat) = x / 2 ^ 32 := by
    intro x
    rw [Int.shiftRight_eq_div_pow]
    norm_num
  refine ⟨?_, ?_, ?_⟩
  · intro hf3
    have hv : exec_switch { mr with next_PC := (mr.PC + 4) % 2 ^ 32 } =
        some (set_reg { mr with next_PC := (mr.PC + 4) % 2 ^ 32 } (RD mr.IR)
          (u32 ((toInt32 (mr.regs (RS1 mr.IR)) * toInt32 (mr.regs (RS2 mr.IR)))
            >>> (32 : Nat)))) := by
      rw [hs]
      simp [exec_op, hf3, hf7]
    obtain ⟨s, hs1, hr⟩ := decode_and_execute_set_reg mr _ _ hrd hv
    refine ⟨s, hs1, ?_⟩
    rw [hr, u32_cast, hsh, sa, sb]
  · intro hf3
    obtain ⟨b1, b2⟩ := signed32_bounds _ ha
    have hprod := mulhsu_product (signed32 (mr.regs (RS1 mr.IR))) (mr.regs (RS2 mr.IR)) b1 b2 hb
    have hv : exec_switch { mr with next_PC := (mr.PC + 4) % 2 ^ 32 } =
        some (set_reg { mr with next_PC := (mr.PC + 4) % 2 ^ 32 } (RD mr.IR)
          (u32 (toInt64 ((u64 (toInt32 (mr.regs (RS1 mr.IR))) *
            (mr.regs (RS2 mr.IR) % 2 ^ 64)) % 2 ^ 64) >>> (32 : Nat)))) := by
      rw [hs]
      simp [exec_op, hf3, hf7]
    obtain ⟨s, hs1, hr⟩ := decode_and_execute_set_reg mr _ _ hrd hv
    refine ⟨s, hs1, ?_⟩
    rw [hr, u32_cast, hsh, sa, hprod]
  · intro hf3
    have hlt : mr.regs (RS1 mr.IR) * mr.regs (RS2 mr.IR) < 2 ^ 64 := by
      have : mr.regs (RS1 mr.IR) * mr.regs (RS2 mr.IR) < 2 ^ 32 * 2 ^ 32 :=
        Nat.mul_lt_mul'' ha hb
      omega
    have hq : mr.regs (RS1 mr.IR) * mr.regs (RS2 mr.IR) / 2 ^ 32 < 2 ^ 32 := by
      rw [Nat.div_lt_iff_lt_mul (by norm_num)]
      omega
    have hv : exec_switch { mr with next_PC := (mr.PC + 4) % 2 ^ 32 } =
        some (set_reg { mr with next_PC := (mr.PC + 4) % 2 ^ 32 } (RD mr.IR)
          ((((mr.regs (RS1 mr.IR) * mr.regs (RS2 mr.IR)) % 2 ^ 64) >>> 32) % 2 ^ 32)) := by
      rw [hs]
      simp [exec_op, hf3, hf7]
    obtain ⟨s, hs1, hr⟩ := decode_and_execute_set_reg mr _ _ hrd hv
    refine ⟨s, hs1, ?_⟩
    rw [hr, Nat.shiftRight_eq_div_pow, Nat.mod_eq_of_lt hlt, Nat.mod_eq_of_lt hq]

theorem C16_mul_high_witness :
    (∃ s, minirisc_decode_and_execute (mul_high_state 0x022091B3) = some s ∧
      ((s.regs 3 : Nat) : Int) =
        (signed32 0xFFFFFFFF * signed32 0xFFFFFFFE / 2 ^ 32) % 2 ^ 32) ∧
    (∃ s, minirisc_decode_and_execute (mul_high_state 0x0220A1B3) = some s ∧
      ((s.regs 3 : Nat) : Int) =
        (signed32 0xFFFFFFFF * ((0xFFFFFFFE : Nat) : Int) / 2 ^ 32) % 2 ^ 32) ∧
    (∃ s, minirisc_decode_and_execute (mul_high_state 0x0220B1B3) = some s ∧
      s.regs 3 = 0xFFFFFFFF * 0xFFFFFFFE / 2 ^ 32) :=
  ⟨(C16_mul_high (mul_high_state 0x022091B3) (by decide) (by decide) (by decide) (by decide)
      (by decide)).1 (by decide),
    (C16_mul_high (mul_high_state 0x0220A1B3) (by decide) (by decide) (by decide) (by decide)
      (by decide)).2.1 (by decide),
    (C16_mul_high (mul_high_state 0x0220B1B3) (by decide) (by decide) (by decide) (by decide)
      (by decide)).2.2 (by decide)⟩

/-! ## JALR -/

theorem u32_lt (x : Int) : u32 x < 2 ^ 32 := by
  unfold u32
  omega

theorem clear_bit_zero (x : Nat) (hx : x < 2 ^ 32) : x &&& 0xFFFFFFFE = x - x % 2 := by
  have e1 : (0xFFFFFFFE : Nat) = 2 ^ 1 * (2 ^ 31 - 1) := by norm_num
  have e2 : x - x % 2 = 2 ^ 1 * (x / 2) := by omega
  rw [e1, e2]
  apply Nat.eq_of_testBit_eq
  intro j
  rw [Nat.testBit_and, Nat.testBit_mul_pow_two, Nat.testBit_mul_pow_two,
    Nat.testBit_two_pow_sub_one, Nat.testBit_div_two]
  by_cases hj : j ≥ 1
  · have hj1 : j - 1 + 1 = j := by omega
    rw [hj1]
    by_cases hj32 : j - 1 < 31
    · simp [hj, hj32]
    · have hpow : 2 ^ 32 ≤ 2 ^ j := Nat.pow_le_pow_right (by norm_num) (by omega)
      have hfalse : x.testBit j = false := Nat.testBit_lt_two_pow (by omega)
      simp [hfalse]
  · simp [hj]

/-- C17: for every JALR word (opcode 0x67) the execution returns, `next_PC` is
`(rs1 + I-immediate) mod 2^32` with bit 0 cleared, computed from the value rs1 held
before the instruction (also when rd and rs1 are the same register); rd, when not x0,
receives `PC + 4`; x0 holds 0 and every other register is unchanged. -/
theorem C17_jalr (mr : minirisc_t) (hop : OPCODE mr.IR = 0x67) :
    ∃ s, minirisc_decode_and_execute mr = some s ∧
      s.next_PC =
        u32 ((mr.regs (RS1 mr.IR) : Int) + get_imm_I mr.IR) -
          u32 ((mr.regs (RS1 mr.IR) : Int) + get_imm_I mr.IR) % 2 ∧
      s.next_PC % 2 = 0 ∧
      (RD mr.IR ≠ 0 → s.regs (RD mr.IR) = (mr.PC + 4) % 2 ^ 32) ∧
      s.regs 0 = 0 ∧
      (∀ i, i ≠ 0 → i ≠ RD mr.IR → s.regs i = mr.regs i) := by
  have hs := exec_switch_jalr { mr with next_PC := (mr.PC + 4) % 2 ^ 32 } hop
  have hclr := clear_bit_zero _ (u32_lt ((mr.regs (RS1 mr.IR) : Int) + get_imm_I mr.IR))
  refine ⟨_, decode_and_execute_of_switch mr _ hs, ?_, ?_, ?_, ?_, ?_⟩
  · exact hclr
  · show (u32 ((mr.regs (RS1 mr.IR) : Int) + get_imm_I mr.IR) &&& 0xFFFFFFFE) % 2 = 0
    rw [hclr]
    omega
  · intro hrd
    simp [set_reg, Function.update, hrd]
  · simp
  · intro i hi hird
    simp [set_reg, Function.update, hi, hird]

theorem C17_jalr_witness :
    (∃ s, minirisc_decode_and_execute (jalr_state 0x008080E7) = some s ∧
      s.next_PC = 0x80000108) ∧
    (∃ s, minirisc_decode_and_execute (jalr_state 0x008080E7) = some s ∧
      s.regs 1 = 0x80000004) :=
  ⟨Exists.elim (C17_jalr (jalr_state 0x008080E7) (by decide))
      (fun s h => ⟨s, h.1, h.2.1⟩),
    Exists.elim (C17_jalr (jalr_state 0x008080E7) (by decide))
      (fun s h => ⟨s, h.1, h.2.2.2.1 (by decide)⟩)⟩

/-! ## Halting -/

theorem load_with_halt (mr : minirisc_t) (ty : access_type_t) (addr rd : Nat)
    (conv : Nat → Nat) : (load_with mr ty addr rd conv).halt = mr.halt := by
  unfold load_with
  cases platform_read mr.platform ty addr <;> rfl

theorem exec_branch_halt (mr : minirisc_t) (inst funct3 rs1 rs2 : Nat) :
    (exec_branch mr inst funct3 rs1 rs2).halt = mr.halt := by
  unfold exec_branch
  split_ifs <;> rfl

theorem exec_load_halt (mr : minirisc_t) (inst funct3 rd rs1 : Nat) :
    (exec_load mr inst funct3 rd rs1).halt = mr.halt := by
  unfold exec_load
  split_ifs <;> simp [load_with_halt]

theorem exec_store_halt (mr : minirisc_t) (inst funct3 rs1 rs2 : Nat) :
    (exec_store mr inst funct3 rs1 rs2).halt = mr.halt := by
  unfold exec_store
  split_ifs <;> rfl

theorem exec_op_imm_halt (mr : minirisc_t) (inst funct3 rd rs1 rs2 funct7 : Nat) :
    (exec_op_imm mr inst funct3 rd rs1 rs2 funct7).halt = mr.halt := by
  simp only [exec_op_imm, apply_ite minirisc_t.halt, set_reg, ite_self]

theorem opcode_of_system (inst : Nat) (h : inst = 0x00000073 ∨ inst = 0x00100073) :
    OPCODE inst = 0x73 := by
  rcases h with h | h <;> subst h <;> decide

theorem exec_switch_halt_frame (mr s : minirisc_t) (h : exec_switch mr = some s)
    (hs : supported_opcode (OPCODE mr.IR)) (hsys : OPCODE mr.IR ≠ 0x73) :
    s.halt = mr.halt := by
  have hs2 := hs
  simp only [supported_opcode] at hs2
  rcases hs2 with c | c | c | c | c | c | c | c | c | c | c
  · rw [exec_switch_lui mr c] at h
    rw [← Option.some.inj h]; rfl
  · rw [exec_switch_auipc mr c] at h
    rw [← Option.some.inj h]; rfl
  · rw [exec_switch_jal mr c] at h
    rw [← Option.some.inj h]; rfl
  · rw [exec_switch_jalr mr c] at h
    rw [← Option.some.inj h]; rfl
  · rw [exec_switch_branch mr c] at h
    rw [← Option.some.inj h]; exact exec_branch_halt _ _ _ _ _
  · rw [exec_switch_load mr c] at h
    rw [← Option.some.inj h]; exact exec_load_halt _ _ _ _ _
  · rw [exec_switch_store mr c] at h
    rw [← Option.some.inj h]; exact exec_store_halt _ _ _ _ _
  · rw [exec_switch_op_imm mr c] at h
    rw [← Option.some.inj h]; exact exec_op_imm_halt _ _ _ _ _ _ _
  · rw [exec_switch_op mr c] at h
    rcases exec_op_some_cases _ _ _ _ _ _ _ h with e | ⟨v, e⟩
    · rw [e]
    · rw [e]; rfl
  · rw [exec_switch_fence mr c] at h
    rw [← Option.some.inj h]
  · exact absurd c hsys

theorem exec_switch_halt (mr s : minirisc_t) (h : exec_switch mr = some s) :
    s.halt = true ↔
      (mr.halt = true ∨ ¬ supported_opcode (OPCODE mr.IR) ∨ mr.IR = 0x00000073 ∨
        mr.IR = 0x00100073) := by
  by_cases hsys : OPCODE mr.IR = 0x73
  · rw [exec_switch_system mr hsys] at h
    have hsup : supported_opcode (OPCODE mr.IR) := by
      rw [hsys]; decide
    by_cases he : mr.IR = 0x00000073 ∨ mr.IR = 0x00100073
    · rw [if_pos he] at h
      rw [← Option.some.inj h]
      exact ⟨fun _ => Or.inr (Or.inr he), fun _ => rfl⟩
    · rw [if_neg he] at h
      rw [← Option.some.inj h]
      constructor
      · intro hh
        exact Or.inl hh
      · intro hh
        rcases hh with hh | hh | hh
        · exact hh
        · exact absurd hsup hh
        · exact absurd hh he
  · have n : ¬ (mr.IR = 0x00000073 ∨ mr.IR = 0x00100073) :=
      fun h => hsys (opcode_of_system _ h)
    by_cases hs : supported_opcode (OPCODE mr.IR)
    · rw [exec_switch_halt_frame mr s h hs hsys]
      constructor
      · intro hh
        exact Or.inl hh
      · intro hh
        rcases hh with hh | hh | hh
        · exact hh
        · exact absurd hs hh
        · exact absurd hh n
    · rw [exec_switch_default mr hs] at h
      rw [← Option.some.inj h]
      exact ⟨fun _ => Or.inr (Or.inl hs), fun _ => rfl⟩

theorem exec_switch_falls_through (mr : minirisc_t) (h : falls_through mr.IR) :
    exec_switch mr = some mr := by
  rcases h with ⟨hop, hf⟩ | ⟨hop, hf⟩ | ⟨hop, h0, h1, h2⟩ | ⟨hop, h0, h1, h20⟩ | ⟨hop, h1, h2⟩
  · rw [exec_switch_branch mr hop]
    rcases hf with hf | hf <;> simp [exec_branch, take_branch, hf]
  · rw [exec_switch_load mr hop]
    rcases hf with hf | hf | hf <;> simp [exec_load, hf]
  · rw [exec_switch_store mr hop]
    simp [exec_store, h0, h1, h2]
  · rw [exec_switch_op mr hop]
    by_cases h32 : FUNCT7 mr.IR = 0x20
    · obtain ⟨g0, g5⟩ := h20 h32
      simp [exec_op, h0, h1, g0, g5]
    · simp [exec_op, h0, h1, h32]
  · rw [exec_switch_system mr hop, if_neg (not_or.mpr ⟨h1, h2⟩)]

/-- C18 (as stated) fails for words whose funct3/funct7 combination is not a defined
instruction but which the code still executes. The word `0x0210D193` has the supported
opcode 0x13 with funct3 = 5 and funct7 = 1 (neither SRLI nor SRAI); from a non-halted
state with x1 = 7 it runs as an arithmetic shift and register 3 goes from 0 to 3. The
word `0x0080D1E7` is opcode 0x67 (JALR) with funct3 = 5: it writes `PC + 4` to register
3 and sets `next_PC` to 14, not to `PC + 4 = 0x80000004`. -/
theorem C18_counterexample :
    (decode_state 0x0210D193).halt = false ∧
    supported_opcode (OPCODE 0x0210D193) ∧ FUNCT3 0x0210D193 = 0x5 ∧
    FUNCT7 0x0210D193 = 0x01 ∧
    (decode_state 0x0210D193).regs 3 = 0 ∧
    (minirisc_decode_and_execute (decode_state 0x0210D193)).map (fun s => s.halt) =
      some false ∧
    (minirisc_decode_and_execute (decode_state 0x0210D193)).map (fun s => s.regs 3) =
      some 3 ∧
    (decode_state 0x0080D1E7).halt = false ∧
    supported_opcode (OPCODE 0x0080D1E7) ∧ FUNCT3 0x0080D1E7 = 0x5 ∧
    (decode_state 0x0080D1E7).PC = 0x80000000 ∧
    (decode_state 0x0080D1E7).regs 3 = 0 ∧
    (minirisc_decode_and_execute (decode_state 0x0080D1E7)).map (fun s => s.halt) =
      some false ∧
    (minirisc_decode_and_execute (decode_state 0x0080D1E7)).map (fun s => s.regs 3) =
      some 0x80000004 ∧
    (minirisc_decode_and_execute (decode_state 0x0080D1E7)).map (fun s => s.next_PC) =
      some 14 := by
  decide

/-- C18 (amended): from a non-halted state `minirisc_decode_and_execute` returns unless
the word is a DIV or REM of 0x80000000 by 0xFFFFFFFF (undefined in C), and when it
returns the halt flag is set exactly when the low 7 bits of the word are none of the
eleven supported opcodes or the word is `0x00000073` (ECALL) or `0x00100073` (EBREAK).
A word with a supported opcode for which no case inside the opcode's block matches
(`falls_through`; in particular opcode 0x33 with funct7 = 0x02, and every SYSTEM word
other than ECALL and EBREAK) does not halt, leaves every register other than x0
unchanged (x0 is reset to 0), leaves the platform unchanged and sets
`next_PC = PC + 4`. Other combinations that are not defined instructions do execute:
an OP-IMM word (opcode 0x13) with funct3 = 5 and any nonzero funct7 writes the
arithmetic right shift of rs1 by the low 5 bits of the rs2 field to rd. -/
theorem C18_halt_condition (mr : minirisc_t) (hrun : mr.halt = false) :
    (div_undefined mr → minirisc_decode_and_execute mr = none) ∧
    (¬ div_undefined mr →
      ∃ s, minirisc_decode_and_execute mr = some s ∧
        (s.halt = true ↔
          (¬ supported_opcode (OPCODE mr.IR) ∨ mr.IR = 0x00000073 ∨
            mr.IR = 0x00100073))) ∧
    (falls_through mr.IR →
      ∃ s, minirisc_decode_and_execute mr = some s ∧
        s = { mr with next_PC := (mr.PC + 4) % 2 ^ 32,
                      regs := Function.update mr.regs 0 0 } ∧
        s.halt = false ∧ s.next_PC = (mr.PC + 4) % 2 ^ 32 ∧ s.platform = mr.platform ∧
        s.regs 0 = 0 ∧ (∀ i, i ≠ 0 → s.regs i = mr.regs i)) ∧
    (OPCODE mr.IR = 0x33 → FUNCT7 mr.IR = 0x02 → falls_through mr.IR) ∧
    (OPCODE mr.IR = 0x73 → mr.IR ≠ 0x00000073 → mr.IR ≠ 0x00100073 →
      falls_through mr.IR) ∧
    (OPCODE mr.IR = 0x13 → FUNCT3 mr.IR = 0x5 → FUNCT7 mr.IR ≠ 0x00 → RD mr.IR ≠ 0 →
      ∃ s, minirisc_decode_and_execute mr = some s ∧ s.halt = false ∧
        s.regs (RD mr.IR) =
          u32 (toInt32 (mr.regs (RS1 mr.IR)) >>> (RS2 mr.IR &&& 0x1F))) := by
  refine ⟨?_, ?_, ?_, ?_, ?_, ?_⟩
  · intro hu
    exact (decode_and_execute_none_iff mr).mpr hu
  · intro hu
    obtain ⟨s, hs⟩ := decode_and_execute_defined mr hu
    obtain ⟨s1, h1, e⟩ := decode_and_execute_some mr s hs
    refine ⟨s, hs, ?_⟩
    have h : s1.halt = true ↔
        (mr.halt = true ∨ ¬ supported_opcode (OPCODE mr.IR) ∨ mr.IR = 0x00000073 ∨
          mr.IR = 0x00100073) :=
      exec_switch_halt { mr with next_PC := (mr.PC + 4) % 2 ^ 32 } s1 h1
    have hh : s.halt = s1.halt := by rw [e]
    rw [hh]
    constructor
    · intro h2
      rcases h.mp h2 with h3 | h3
      · rw [hrun] at h3
        exact absurd h3 (by decide)
      · exact h3
    · intro h2
      exact h.mpr (Or.inr h2)
  · intro hft
    have hs := exec_switch_falls_through { mr with next_PC := (mr.PC + 4) % 2 ^ 32 } hft
    refine ⟨_, decode_and_execute_of_switch mr _ hs, rfl, hrun, rfl, rfl, ?_, ?_⟩
    · simp
    · intro i hi
      simp [Function.update, hi]
  · intro hop hf7
    refine Or.inr (Or.inr (Or.inr (Or.inl ⟨hop, ?_, ?_, ?_⟩)))
    · rw [hf7]; decide
    · rw [hf7]; decide
    · intro h; rw [hf7] at h; exact absurd h (by decide)
  · intro hop h1 h2
    exact Or.inr (Or.inr (Or.inr (Or.inr ⟨hop, h1, h2⟩)))
  · intro hop hf3 hf7 hrd
    have hs := exec_switch_op_imm { mr with next_PC := (mr.PC + 4) % 2 ^ 32 } hop
    have hv : exec_switch { mr with next_PC := (mr.PC + 4) % 2 ^ 32 } =
        some (set_reg { mr with next_PC := (mr.PC + 4) % 2 ^ 32 } (RD mr.IR)
          (u32 (toInt32 (mr.regs (RS1 mr.IR)) >>> (RS2 mr.IR &&& 0x1F)))) := by
      rw [hs]
      simp [exec_op_imm, hf3, hf7]
    refine ⟨_, decode_and_execute_of_switch mr _ hv, hrun, ?_⟩
    simp [set_reg, Function.update, hrd]

theorem C18_halt_condition_witness :
    (∃ s, minirisc_decode_and_execute (decode_state 0x0420F1B3) = some s ∧
      s = { decode_state 0x0420F1B3 with
            next_PC := ((decode_state 0x0420F1B3).PC + 4) % 2 ^ 32
            regs := Function.update (decode_state 0x0420F1B3).regs 0 0 } ∧
      s.halt = false) ∧
    (∃ s, minirisc_decode_and_execute (decode_state 0x00200073) = some s ∧
      s = { decode_state 0x00200073 with
            next_PC := ((decode_state 0x00200073).PC + 4) % 2 ^ 32
            regs := Function.update (decode_state 0x00200073).regs 0 0 } ∧
      s.halt = false) ∧
    (∃ s, minirisc_decode_and_execute (decode_state 0x00100073) = some s ∧
      (s.halt = true ↔
        (¬ supported_opcode (OPCODE (decode_state 0x00100073).IR) ∨
          (decode_state 0x00100073).IR = 0x00000073 ∨
          (decode_state 0x00100073).IR = 0x00100073))) ∧
    (∃ s, minirisc_decode_and_execute (decode_state 0x0210D193) = some s ∧
      s.halt = false ∧
      s.regs (RD (decode_state 0x0210D193).IR) =
        u32 (toInt32 ((decode_state 0x0210D193).regs (RS1 (decode_state 0x0210D193).IR))
          >>> (RS2 (decode_state 0x0210D193).IR &&& 0x1F))) :=
  ⟨Exists.elim
      ((C18_halt_condition (decode_state 0x0420F1B3) (by decide)).2.2.1
        ((C18_halt_condition (decode_state 0x0420F1B3) (by decide)).2.2.2.1 (by decide)
          (by decide)))
      (fun s h => ⟨s, h.1, h.2.1, h.2.2.1⟩),
    Exists.elim
      ((C18_halt_condition (decode_state 0x00200073) (by decide)).2.2.1
        ((C18_halt_condition (decode_state 0x00200073) (by decide)).2.2.2.2.1 (by decide)
          (by decide) (by decide)))
      (fun s h => ⟨s, h.1, h.2.1, h.2.2.1⟩),
    (C18_halt_condition (decode_state 0x00100073) (by decide)).2.1 (by decide),
    (C18_halt_condition (decode_state 0x0210D193) (by decide)).2.2.2.2.2 (by decide)
      (by decide) (by decide) (by decide)⟩

/-! ## Buffer bounds -/

theorem access_ok_in_RAM (plt : platform_t) (hok : platform_ok plt) (ty : access_type_t)
    (a : Nat) (hnc : ¬ in_console_window plt a)
    (hsucc : platform_read plt ty a ≠ none ∨ ∃ v, (platform_write plt ty a v).1 = 0) :
    in_RAM plt a ∧ a % access_width ty = 0 := by
  by_contra hcon
  have hbad : bad_address plt ty a := by
    by_cases hr : in_RAM plt a
    · exact Or.inr ⟨hr, fun hal => hcon ⟨hr, hal⟩⟩
    · exact Or.inl ⟨hnc, hr⟩
  obtain ⟨hread, hwrite⟩ := bad_address_fails plt hok ty a hbad
  rcases hsucc with h | ⟨v, h⟩
  · exact h hread
  · rw [hwrite v] at h
    have hneg : ((-1 : Int), plt).1 = -1 := rfl
    rw [hneg] at h
    exact absurd h (by decide)

theorem access_in_bounds (plt : platform_t) (hok : platform_ok plt) (ty : access_type_t)
    (a : Nat) (hr : in_RAM plt a) (hal : a % access_width ty = 0) :
    plt.memory_base ≤ a ∧ a - plt.memory_base + access_width ty ≤ plt.memory_size := by
  obtain ⟨-, -, -, hb4, hs4⟩ := hok
  obtain ⟨hlo, hhi⟩ := hr
  cases ty with
  | ACCESS_BYTE =>
    simp only [access_width]
    omega
  | ACCESS_HALF =>
    simp only [access_width] at hal ⊢
    omega
  | ACCESS_WORD =>
    simp only [access_width] at hal ⊢
    omega

theorem platform_write_memory_frame (plt : platform_t) (ty : access_type_t) (a v i : Nat)
    (h : i < a - plt.memory_base ∨ a - plt.memory_base + access_width ty ≤ i) :
    (platform_write plt ty a v).2.memory i = plt.memory i := by
  unfold platform_write
  cases ty with
  | ACCESS_BYTE =>
    simp only [access_width] at h
    have h0 : i ≠ a - plt.memory_base := by omega
    dsimp only
    split_ifs <;> simp [Function.update_apply, h0]
  | ACCESS_HALF =>
    simp only [access_width] at h
    have h0 : i ≠ a - plt.memory_base := by omega
    have h1 : i ≠ a - plt.memory_base + 1 := by omega
    dsimp only
    split_ifs <;> simp [Function.update_apply, h0, h1]
  | ACCESS_WORD =>
    simp only [access_width] at h
    have h0 : i ≠ a - plt.memory_base := by omega
    have h1 : i ≠ a - plt.memory_base + 1 := by omega
    have h2 : i ≠ a - plt.memory_base + 2 := by omega
    have h3 : i ≠ a - plt.memory_base + 3 := by omega
    dsimp only
    split_ifs <;> simp [Function.update_apply, h0, h1, h2, h3]

theorem platform_read_congr (plt plt2 : platform_t) (ty : access_type_t) (a : Nat)
    (hb : plt2.memory_base = plt.memory_base) (hs : plt2.memory_size = plt.memory_size)
    (hc : plt2.charout_base = plt.charout_base)
    (hm : ∀ i, a - plt.memory_base ≤ i → i < a - plt.memory_base + access_width ty →
      plt2.memory i = plt.memory i) :
    platform_read plt2 ty a = platform_read plt ty a := by
  have e1 : in_charout plt2 a = in_charout plt a := by
    simp only [in_charout, hc]
  have e2 : out_of_ram plt2 a = out_of_ram plt a := by
    simp only [out_of_ram, hb, hs]
  unfold platform_read
  rw [e1, e2, hb]
  cases ty with
  | ACCESS_BYTE =>
    simp only [access_width] at hm
    dsimp only
    rw [hm (a - plt.memory_base) (le_refl _) (by omega)]
  | ACCESS_HALF =>
    simp only [access_width] at hm
    dsimp only
    rw [hm (a - plt.memory_base) (le_refl _) (by omega),
      hm (a - plt.memory_base + 1) (by omega) (by omega)]
  | ACCESS_WORD =>
    simp only [access_width] at hm
    dsimp only
    rw [hm (a - plt.memory_base) (le_refl _) (by omega),
      hm (a - plt.memory_base + 1) (by omega) (by omega),
      hm (a - plt.memory_base + 2) (by omega) (by omega),
      hm (a - plt.memory_base + 3) (by omega) (by omega)]

/-- C19: in the reference configuration (`memory_base = 0x80000000`, 32 MiB of RAM,
console at `0x10000000`, any memory contents), whenever `platform_read` or
`platform_write` succeeds at an address outside the console window, the address is at or
above `memory_base` and `offset + width <= memory_size` for `offset = addr - memory_base`
and width 1, 2 or 4, and the buffer cells the call uses are the cells
`offset .. offset + width - 1` only: a read returns the same value on every platform of
the same configuration whose buffer agrees with this one on those cells, and a write
changes no cell outside them, in particular no cell at or past `memory_size`. -/
theorem C19_buffer_bounds (plt : platform_t)
    (hcfg : plt.memory_base = MEMORY_BASE ∧ plt.memory_size = MEMORY_SIZE ∧
      plt.charout_base = CHAROUT_BASE)
    (ty : access_type_t) (a : Nat) (hnc : ¬ in_console_window plt a) :
    (∀ d, platform_read plt ty a = some d →
      plt.memory_base ≤ a ∧ a - plt.memory_base + access_width ty ≤ plt.memory_size ∧
      (∀ plt2 : platform_t, plt2.memory_base = plt.memory_base →
        plt2.memory_size = plt.memory_size → plt2.charout_base = plt.charout_base →
        (∀ i, a - plt.memory_base ≤ i → i < a - plt.memory_base + access_width ty →
          plt2.memory i = plt.memory i) →
        platform_read plt2 ty a = some d)) ∧
    (∀ v, (platform_write plt ty a v).1 = 0 →
      plt.memory_base ≤ a ∧ a - plt.memory_base + access_width ty ≤ plt.memory_size ∧
      (∀ i, i < a - plt.memory_base ∨ a - plt.memory_base + access_width ty ≤ i →
        (platform_write plt ty a v).2.memory i = plt.memory i) ∧
      (∀ i, plt.memory_size ≤ i →
        (platform_write plt ty a v).2.memory i = plt.memory i)) := by
  have hok : platform_ok plt := by
    obtain ⟨h1, h2, h3⟩ := hcfg
    show plt.charout_base + 12 < 2 ^ 32 ∧ plt.memory_base + plt.memory_size < 2 ^ 32 ∧
      (plt.charout_base + 12 ≤ plt.memory_base ∨
        plt.memory_base + plt.memory_size ≤ plt.charout_base) ∧
      plt.memory_base % 4 = 0 ∧ plt.memory_size % 4 = 0
    rw [h1, h2, h3]
    decide
  constructor
  · intro d hd
    obtain ⟨hr, hal⟩ := access_ok_in_RAM plt hok ty a hnc (Or.inl (by rw [hd]; simp))
    obtain ⟨hlo, hhi⟩ := access_in_bounds plt hok ty a hr hal
    refine ⟨hlo, hhi, ?_⟩
    intro plt2 hb hs hc hm
    rw [platform_read_congr plt plt2 ty a hb hs hc hm, hd]
  · intro v hv
    obtain ⟨hr, hal⟩ := access_ok_in_RAM plt hok ty a hnc (Or.inr ⟨v, hv⟩)
    obtain ⟨hlo, hhi⟩ := access_in_bounds plt hok ty a hr hal
    refine ⟨hlo, hhi, ?_, ?_⟩
    · intro i hi
      exact platform_write_memory_frame plt ty a v i hi
    · intro i hi
      exact platform_write_memory_frame plt ty a v i (Or.inr (le_trans hhi hi))

theorem C19_buffer_bounds_witness :
    (platform_new.memory_base ≤ 0x81FFFFFC ∧
      0x81FFFFFC - platform_new.memory_base + access_width ACCESS_WORD ≤
        platform_new.memory_size) ∧
    platform_read past_end_platform ACCESS_WORD 0x81FFFFFC = some 0 ∧
    (platform_new.memory_base ≤ 0x81FFFFFE ∧
      0x81FFFFFE - platform_new.memory_base + access_width ACCESS_HALF ≤
        platform_new.memory_size) ∧
    (platform_write platform_new ACCESS_HALF 0x81FFFFFE 0xFFFF).2.memory MEMORY_SIZE =
      platform_new.memory MEMORY_SIZE :=
  ⟨⟨((C19_buffer_bounds platform_new ⟨rfl, rfl, rfl⟩ ACCESS_WORD 0x81FFFFFC (by decide)).1 0
        (by decide)).1,
      ((C19_buffer_bounds platform_new ⟨rfl, rfl, rfl⟩ ACCESS_WORD 0x81FFFFFC (by decide)).1 0
        (by decide)).2.1⟩,
    ((C19_buffer_bounds platform_new ⟨rfl, rfl, rfl⟩ ACCESS_WORD 0x81FFFFFC (by decide)).1 0
      (by decide)).2.2 past_end_platform rfl rfl rfl
      (fun i _ h2 => by
        have h3 : i < 33554432 := h2
        have h4 : ¬ (33554432 ≤ i) := by omega
        show (if 33554432 ≤ i then 0xFF else 0) = 0
        rw [if_neg h4]),
    ⟨((C19_buffer_bounds platform_new ⟨rfl, rfl, rfl⟩ ACCESS_HALF 0x81FFFFFE (by decide)).2
        0xFFFF (by decide)).1,
      ((C19_buffer_bounds platform_new ⟨rfl, rfl, rfl⟩ ACCESS_HALF 0x81FFFFFE (by decide)).2
        0xFFFF (by decide)).2.1⟩,
    ((C19_buffer_bounds platform_new ⟨rfl, rfl, rfl⟩ ACCESS_HALF 0x81FFFFFE (by decide)).2
      0xFFFF (by decide)).2.2.2 MEMORY_SIZE (le_refl _)⟩

/-! ## Division and remainder -/

theorem decode_and_execute_none_of_switch (mr : minirisc_t)
    (h : exec_switch { mr with next_PC := (mr.PC + 4) % 2 ^ 32 } = none) :
    minirisc_decode_and_execute mr = none := by
  unfold minirisc_decode_and_execute
  rw [h]

theorem executed_rd_muldiv (mr : minirisc_t) (w funct3 a b : Nat)
    (h : muldiv_word mr w funct3 a b) :
    executed_rd mr w =
      (exec_op { mr with IR := w, next_PC := (mr.PC + 4) % 2 ^ 32 } funct3 (RD w) (RS1 w)
        (RS2 w) 0x01).map (fun s => s.regs (RD w)) := by
  obtain ⟨hop, hf7, hf3, hrd, -, -⟩ := h
  have hs := exec_switch_op { mr with IR := w, next_PC := (mr.PC + 4) % 2 ^ 32 } hop
  simp only [hf3, hf7] at hs
  cases hx : exec_op { mr with IR := w, next_PC := (mr.PC + 4) % 2 ^ 32 } funct3 (RD w)
      (RS1 w) (RS2 w) 0x01 with
  | none =>
    have hd : minirisc_decode_and_execute { mr with IR := w } = none :=
      decode_and_execute_none_of_switch { mr with IR := w } (hs.trans hx)
    unfold executed_rd
    rw [hd]
  | some s1 =>
    have hd := decode_and_execute_of_switch { mr with IR := w } s1 (hs.trans hx)
    unfold executed_rd
    rw [hd]
    simp [Function.update, hrd]

theorem div_overflow_iff (a b : Nat) (ha : a < 2 ^ 32) (hb : b < 2 ^ 32) :
    div_overflow a b ↔ (a = 0x80000000 ∧ b = 0xFFFFFFFF) := by
  unfold div_overflow toInt32
  rw [Nat.mod_eq_of_lt ha, Nat.mod_eq_of_lt hb]
  split_ifs <;> constructor <;> rintro ⟨h1, h2⟩ <;> first
    | exact h1.elim
    | exact h2.elim
    | (constructor <;> omega)

theorem executed_rd_div (mr : minirisc_t) (w a b : Nat) (h : muldiv_word mr w 0x4 a b) :
    executed_rd mr w =
      if b = 0 then some 0xFFFFFFFF
      else if div_overflow a b then none
      else some (u32 (Int.tdiv (toInt32 a) (toInt32 b))) := by
  rw [executed_rd_muldiv mr w _ a b h]
  obtain ⟨-, -, -, -, ha, hb⟩ := h
  have e : u32 (-1) = 0xFFFFFFFF := by decide
  by_cases hz : b = 0
  · simp [exec_op, set_reg, ha, hb, hz, e]
  · by_cases ho : div_overflow a b
    · rw [if_neg hz, if_pos ho]
      simp [exec_op, ha, hb, hz, ho]
    · rw [if_neg hz, if_neg ho]
      simp [exec_op, set_reg, ha, hb, hz, ho]

theorem executed_rd_divu (mr : minirisc_t) (w a b : Nat) (h : muldiv_word mr w 0x5 a b) :
    executed_rd mr w = some (if b = 0 then 0xFFFFFFFF else a / b) := by
  rw [executed_rd_muldiv mr w _ a b h]
  obtain ⟨-, -, -, -, ha, hb⟩ := h
  by_cases hz : b = 0 <;> simp [exec_op, set_reg, ha, hb, hz]

theorem executed_rd_rem (mr : minirisc_t) (w a b : Nat) (h : muldiv_word mr w 0x6 a b) :
    executed_rd mr w =
      if b = 0 then some a
      else if div_overflow a b then none
      else some (u32 (Int.tmod (toInt32 a) (toInt32 b))) := by
  rw [executed_rd_muldiv mr w _ a b h]
  obtain ⟨-, -, -, -, ha, hb⟩ := h
  by_cases hz : b = 0
  · simp [exec_op, set_reg, ha, hb, hz]
  · by_cases ho : div_overflow a b
    · rw [if_neg hz, if_pos ho]
      simp [exec_op, ha, hb, hz, ho]
    · rw [if_neg hz, if_neg ho]
      simp [exec_op, set_reg, ha, hb, hz, ho]

theorem executed_rd_remu (mr : minirisc_t) (w a b : Nat) (h : muldiv_word mr w 0x7 a b) :
    executed_rd mr w = some (if b = 0 then a else a % b) := by
  rw [executed_rd_muldiv mr w _ a b h]
  obtain ⟨-, -, -, -, ha, hb⟩ := h
  by_cases hz : b = 0 <;> simp [exec_op, set_reg, ha, hb, hz]

theorem tmod_nonneg_bound (a b : Int) (ha : 0 ≤ a) (hb : b ≠ 0) :
    0 ≤ a.tmod b ∧ a.tmod b < |b| := by
  refine ⟨Int.tmod_nonneg b ha, ?_⟩
  rcases lt_or_gt_of_ne hb with h | h
  · have e : a.tmod b = a.tmod (-b) := (Int.tmod_neg a b).symm
    rw [e, abs_of_neg h]
    exact Int.tmod_lt_of_pos a (by omega)
  · rw [abs_of_pos h]
    exact Int.tmod_lt_of_pos a h

theorem tmod_of_neg (a b : Int) : (-a).tmod b = -(a.tmod b) := by
  rw [Int.tmod_def, Int.tmod_def, Int.neg_tdiv]
  ring

theorem tmod_sign_bound (a b : Int) (hb : b ≠ 0) :
    (0 ≤ a → 0 ≤ a.tmod b) ∧ (a ≤ 0 → a.tmod b ≤ 0) ∧ |a.tmod b| < |b| := by
  rcases le_total 0 a with ha | ha
  · obtain ⟨h1, h2⟩ := tmod_nonneg_bound a b ha hb
    refine ⟨fun _ => h1, fun h => ?_, ?_⟩
    · have h0 : a = 0 := by omega
      subst h0
      simp
    · rw [abs_of_nonneg h1]; exact h2
  · obtain ⟨h1, h2⟩ := tmod_nonneg_bound (-a) b (by omega) hb
    rw [tmod_of_neg] at h1 h2
    refine ⟨fun h => ?_, fun _ => by omega, ?_⟩
    · have h0 : a = 0 := by omega
      subst h0
      simp
    · rw [abs_of_nonpos (by omega)]; exact h2

theorem signed32_cast (x : Nat) :
    (x : Int) = signed32 x + 2 ^ 32 * (if x < 2 ^ 31 then 0 else 1) := by
  unfold signed32
  split_ifs <;> ring

theorem signed32_u32 (x : Int) (h1 : -2147483648 ≤ x) (h2 : x < 2147483648) :
    signed32 (u32 x) = x := by
  unfold signed32 u32
  split_ifs <;> omega

theorem mod_eq_of_int_dvd (x a : Nat) (ha : a < 2 ^ 32) (K : Int)
    (h : (x : Int) - (a : Int) = 2 ^ 32 * K) : x % 2 ^ 32 = a := by
  omega

theorem signed_div_rem_identity (a b : Nat) (ha : a < 2 ^ 32) :
    (u32 (Int.tdiv (signed32 a) (signed32 b)) * b + u32 (Int.tmod (signed32 a) (signed32 b)))
      % 2 ^ 32 = a := by
  have hq := u32_cast (Int.tdiv (signed32 a) (signed32 b))
  have hr := u32_cast (Int.tmod (signed32 a) (signed32 b))
  have hid := Int.tdiv_add_tmod (signed32 a) (signed32 b)
  have hca := signed32_cast a
  have hcb := signed32_cast b
  rw [Int.emod_def] at hq hr
  generalize Int.tdiv (signed32 a) (signed32 b) = Q at hq hr hid
  generalize Int.tmod (signed32 a) (signed32 b) = R at hq hr hid
  generalize (if a < 2 ^ 31 then (0 : Int) else 1) = ca at hca
  generalize (if b < 2 ^ 31 then (0 : Int) else 1) = cb at hcb
  generalize Q / 2 ^ 32 = k1 at hq
  generalize R / 2 ^ 32 = k3 at hr
  apply mod_eq_of_int_dvd _ a ha (Q * cb - k1 * signed32 b - 2 ^ 32 * k1 * cb - k3 - ca)
  push_cast
  rw [hq, hr, hcb]
  conv_lhs => rw [hca]
  linear_combination hid

/-- C20: for 32-bit values `a` (rs1) and `b` (rs2), `b = 0` included and the signed case
`a = 0x80000000`, `b = 0xFFFFFFFF` excluded: DIV and REM return, their results `q` and
`r` satisfy `q * b + r = a` modulo 2^32, `r` is zero or has the sign of the dividend, and
for `b` other than 0 the signed remainder is smaller in magnitude than the signed divisor
(truncation toward zero); DIVU and REMU return for all `a` and `b`, and their results
`q` and `r` satisfy `q * b + r = a` modulo 2^32, with `r < b` when `b` is not 0. In the
excluded signed case DIV and REM are undefined (no result). -/
theorem C20_div_rem (mr : minirisc_t) (a b : Nat) (ha : a < 2 ^ 32) (hb : b < 2 ^ 32) :
    (∀ wq wr, muldiv_word mr wq 0x4 a b → muldiv_word mr wr 0x6 a b →
      ¬ (a = 0x80000000 ∧ b = 0xFFFFFFFF) →
      ∃ q r, executed_rd mr wq = some q ∧ executed_rd mr wr = some r ∧
        (q * b + r) % 2 ^ 32 = a ∧
        (signed32 r = 0 ∨ (0 < signed32 r ∧ 0 < signed32 a) ∨
          (signed32 r < 0 ∧ signed32 a < 0)) ∧
        (b ≠ 0 → |signed32 r| < |signed32 b|)) ∧
    (∀ wq wr, muldiv_word mr wq 0x5 a b → muldiv_word mr wr 0x7 a b →
      ∃ q r, executed_rd mr wq = some q ∧ executed_rd mr wr = some r ∧
        (q * b + r) % 2 ^ 32 = a ∧ (b ≠ 0 → r < b)) ∧
    (∀ wq wr, muldiv_word mr wq 0x4 a b → muldiv_word mr wr 0x6 a b →
      a = 0x80000000 → b = 0xFFFFFFFF →
      executed_rd mr wq = none ∧ executed_rd mr wr = none) := by
  refine ⟨?_, ?_, ?_⟩
  · intro wq wr hwq hwr hex
    have hno : ¬ div_overflow a b := fun h => hex ((div_overflow_iff a b ha hb).mp h)
    rw [executed_rd_div mr wq a b hwq, executed_rd_rem mr wr a b hwr]
    by_cases hz : b = 0
    · subst hz
      refine ⟨0xFFFFFFFF, a, by simp, by simp, ?_, ?_, fun h => absurd rfl h⟩
      · simp only [Nat.mul_zero, Nat.zero_add, Nat.mod_eq_of_lt ha]
      · rcases lt_trichotomy (signed32 a) 0 with h | h | h
        · exact Or.inr (Or.inr ⟨h, h⟩)
        · exact Or.inl h
        · exact Or.inr (Or.inl ⟨h, h⟩)
    · rw [if_neg hz, if_neg hno, if_neg hz, if_neg hno,
        toInt32_eq_signed32 a ha, toInt32_eq_signed32 b hb]
      refine ⟨_, _, rfl, rfl, ?_⟩
      have hsb : signed32 b ≠ 0 := by
        unfold signed32
        split_ifs <;> omega
      obtain ⟨t1, t2, t3⟩ := tmod_sign_bound (signed32 a) (signed32 b) hsb
      obtain ⟨b1, b2⟩ := signed32_bounds b hb
      have habs : |signed32 b| ≤ 2147483648 := abs_le.mpr ⟨by omega, by omega⟩
      obtain ⟨r1, r2⟩ := abs_lt.mp (lt_of_lt_of_le t3 habs)
      have hsr := signed32_u32 (Int.tmod (signed32 a) (signed32 b)) (by omega) (by omega)
      rw [hsr]
      refine ⟨signed_div_rem_identity a b ha, ?_, fun _ => t3⟩
      rcases lt_trichotomy (Int.tmod (signed32 a) (signed32 b)) 0 with h | h | h
      · refine Or.inr (Or.inr ⟨h, ?_⟩)
        by_contra hc
        have := t1 (by omega)
        omega
      · exact Or.inl h
      · refine Or.inr (Or.inl ⟨h, ?_⟩)
        by_contra hc
        have := t2 (by omega)
        omega
  · intro wq wr hwq hwr
    rw [executed_rd_divu mr wq a b hwq, executed_rd_remu mr wr a b hwr]
    refine ⟨_, _, rfl, rfl, ?_⟩
    by_cases hz : b = 0
    · subst hz
      simp only [if_true, Nat.mul_zero, Nat.zero_add, Nat.mod_eq_of_lt ha, true_and]
      exact fun h => absurd rfl h
    · simp only [hz, if_false]
      have hdm : a / b * b + a % b = a := Nat.div_add_mod' a b
      refine ⟨?_, fun _ => Nat.mod_lt a (Nat.pos_of_ne_zero hz)⟩
      rw [hdm]
      exact Nat.mod_eq_of_lt ha
  · intro wq wr hwq hwr h1 h2
    have ho : div_overflow a b := (div_overflow_iff a b ha hb).mpr ⟨h1, h2⟩
    have hz : b ≠ 0 := by omega
    rw [executed_rd_div mr wq a b hwq, executed_rd_rem mr wr a b hwr,
      if_neg hz, if_pos ho, if_neg hz, if_pos ho]
    exact ⟨rfl, rfl⟩

theorem C20_div_rem_witness :
    (∃ q r, executed_rd div_state 0x0220C1B3 = some q ∧
      executed_rd div_state 0x0220E1B3 = some r ∧
      (q * 2 + r) % 2 ^ 32 = 0xFFFFFFF9 ∧
      (signed32 r = 0 ∨ (0 < signed32 r ∧ 0 < signed32 0xFFFFFFF9) ∨
        (signed32 r < 0 ∧ signed32 0xFFFFFFF9 < 0)) ∧
      (2 ≠ 0 → |signed32 r| < |signed32 2|)) ∧
    (∃ q r, executed_rd div_state 0x0220D1B3 = some q ∧
      executed_rd div_state 0x0220F1B3 = some r ∧
      (q * 2 + r) % 2 ^ 32 = 0xFFFFFFF9 ∧ (2 ≠ 0 → r < 2)) ∧
    (executed_rd div_trap_state 0x0220C1B3 = none ∧
      executed_rd div_trap_state 0x0220E1B3 = none) :=
  ⟨(C20_div_rem div_state 0xFFFFFFF9 2 (by decide) (by decide)).1 0x0220C1B3 0x0220E1B3
      (by decide) (by decide) (by decide),
    (C20_div_rem div_state 0xFFFFFFF9 2 (by decide) (by decide)).2.1 0x0220D1B3 0x0220F1B3
      (by decide) (by decide),
    (C20_div_rem div_trap_state 0x80000000 0xFFFFFFFF (by decide) (by decide)).2.2
      0x0220C1B3 0x0220E1B3 (by decide) (by decide) rfl rfl⟩

end MiniRisc
